import Mathlib

/-!
Verification development for the mcp-shield detection engine.

The TypeScript source (`src/tool-analyzer.ts`, `src/utils/server-connectors.ts`,
`src/analyzers/claude-analyzer.ts`) is shallowly embedded here:

* JS strings are `List Char` (`Str`);
* the fixed regular-expression rule tables are transcribed into a small
  regex AST (`RE`) covering exactly the constructs those rules use
  (case-insensitive literals, character classes, alternation, optional
  parts, greedy/lazy star and plus on character classes, word boundaries,
  negative lookahead), with a backtracking matcher `matchEnds` returning
  candidate match end positions in JS backtracking priority order;
* `String.prototype.match` (no `g` flag) is `matchFirst`: the leftmost
  position admitting a match, paired with the length of the
  highest-priority match there;
* JSON schema values are the inductive `Js`; fallible JS code (property
  access on `null`, `new RegExp` on invalid syntax) returns `Except`.
-/

namespace MCPShield

/-- JS strings, embedded as lists of characters. -/
abbrev Str := List Char

/-- Coerce a Lean string literal to the embedded string type. -/
def strL (s : String) : Str := s.data

/-- The apostrophe character (U+0027), kept as a named constant. -/
def apos : Char := Char.ofNat 39

/-- ASCII lower-casing, the fragment of `String.prototype.toLowerCase`
and of the regex `i`-flag canonicalisation exercised by the rule set. -/
def lowerC (c : Char) : Char :=
  if 'A' ≤ c ∧ c ≤ 'Z' then Char.ofNat (c.toNat + 32) else c

/-- ASCII upper-casing (regex `i`-flag canonicalisation direction). -/
def upperC (c : Char) : Char :=
  if 'a' ≤ c ∧ c ≤ 'z' then Char.ofNat (c.toNat - 32) else c

/-- Case-insensitive character comparison (`i` flag). -/
def eqCI (a b : Char) : Bool := lowerC a = lowerC b

/-- JS `toLowerCase` on a whole string. -/
def lowerS (s : Str) : Str := s.map lowerC

/-- JS regex `\s` / `String.split(/\s+/)` whitespace set. -/
def isJsWs (c : Char) : Bool :=
  c = ' ' || c = '\t' || c = '\n' || c = '\r' ||
  c = Char.ofNat 0x0b || c = Char.ofNat 0x0c || c = Char.ofNat 0xa0 ||
  c = Char.ofNat 0x1680 || (0x2000 ≤ c.toNat && c.toNat ≤ 0x200a) ||
  c = Char.ofNat 0x2028 || c = Char.ofNat 0x2029 || c = Char.ofNat 0x202f ||
  c = Char.ofNat 0x205f || c = Char.ofNat 0x3000 || c = Char.ofNat 0xfeff

/-- JS regex `\w` word characters (used by the `\b` assertion). -/
def isWordChar (c : Char) : Bool :=
  ('a' ≤ c ∧ c ≤ 'z') || ('A' ≤ c ∧ c ≤ 'Z') || ('0' ≤ c ∧ c ≤ '9') || c = '_'

/-- JS regex line terminators (the characters `.` does not match). -/
def isLineTerm (c : Char) : Bool :=
  c = '\n' || c = '\r' || c = Char.ofNat 0x2028 || c = Char.ofNat 0x2029

/-- Character classes occurring in the fixed rule tables and in compiled
cross-origin token regexes. -/
inductive CC
  /-- Class `.` — any character except a line terminator. -/
  | any
  /-- Class `[\s\S]` — any character at all. -/
  | anyS
  /-- Class `\s` -/
  | ws
  /-- Class `\S` -/
  | nws
  /-- Class `\d` -/
  | digit
  /-- Class `\D` -/
  | ndigit
  /-- Class `\w` -/
  | word
  /-- Class `\W` -/
  | nword
  /-- a single literal character, e.g. the body of `x*` -/
  | single (c : Char)
  /-- a character range `[a-b]`, e.g. `[ -_]` -/
  | range (lo hi : Char)
  deriving DecidableEq

/-- Does class `k` match character `c`?  Matching is under the `i` flag:
single characters compare case-insensitively, and a range matches `c` if
some member of the range canonicalises (ASCII upper-case) like `c`
(ECMA-262 CharacterSetMatcher with Canonicalize; this is why
`[ -_]/i` also matches lower-case letters). -/
def ccMatch (k : CC) (c : Char) : Bool :=
  match k with
  | .any => !isLineTerm c
  | .anyS => true
  | .ws => isJsWs c
  | .nws => !isJsWs c
  | .digit => '0' ≤ c ∧ c ≤ '9'
  | .ndigit => !('0' ≤ c ∧ c ≤ '9')
  | .word => isWordChar c
  | .nword => !isWordChar c
  | .single d => eqCI c d
  | .range lo hi =>
      (List.range' lo.toNat (hi.toNat + 1 - lo.toNat)).any
        (fun n => upperC (Char.ofNat n) = upperC c)

/-- The regex AST: exactly the constructs used by the rule tables of
`tool-analyzer.ts` and by the dynamically built `\btoken\b` regexes. -/
inductive RE
  | eps
  /-- a literal character (case-insensitive, all rules carry `/i`) -/
  | lit (c : Char)
  | cls (k : CC)
  | seq (a b : RE)
  | alt (a b : RE)
  /-- greedy `?` -/
  | opt (r : RE)
  /-- Star `k*` (lazy := `k*?`) -/
  | starCls (k : CC) (lazy : Bool)
  /-- Plus `k+` (lazy := `k+?`) -/
  | plusCls (k : CC) (lazy : Bool)
  /-- Assertion `\b` -/
  | wb
  /-- negative lookahead `(?!r)` -/
  | nla (r : RE)
  deriving DecidableEq

/-- Is position `i` of `t` occupied by a word character? -/
def wordAt (t : Str) (i : Nat) : Bool :=
  match t.get? i with
  | some c => isWordChar c
  | none => false

/-- The `\b` test at position `p` (between `t[p-1]` and `t[p]`). -/
def isBoundary (t : Str) (p : Nat) : Bool :=
  let prev := match p with
    | 0 => false
    | q + 1 => wordAt t q
  prev != wordAt t p

/-- Length of the maximal run of class-`k` characters starting at `p`. -/
def runLen (k : CC) (t : Str) (p : Nat) : Nat :=
  ((t.drop p).takeWhile (ccMatch k)).length

/-- All end positions at which `re` can match inside `t` starting at
position `p`, listed in JS backtracking priority order (the engine's
chosen match end is the head). -/
def matchEnds (re : RE) (t : Str) (p : Nat) : List Nat :=
  match re with
  | .eps => [p]
  | .lit c =>
      match t.get? p with
      | some d => if eqCI d c then [p + 1] else []
      | none => []
  | .cls k =>
      match t.get? p with
      | some d => if ccMatch k d then [p + 1] else []
      | none => []
  | .seq a b => (matchEnds a t p).flatMap (fun e => matchEnds b t e)
  | .alt a b => matchEnds a t p ++ matchEnds b t p
  | .opt r => matchEnds r t p ++ [p]
  | .starCls k lazy =>
      let m := runLen k t p
      let asc := (List.range (m + 1)).map (p + ·)
      if lazy then asc else asc.reverse
  | .plusCls k lazy =>
      let m := runLen k t p
      let asc := (List.range m).map (fun i => p + 1 + i)
      if lazy then asc else asc.reverse
  | .wb => if isBoundary t p then [p] else []
  | .nla r => if matchEnds r t p = [] then [p] else []

/-- Scan candidate start positions in order; the first position where the
regex matches yields `(start, length)` — JS `String.prototype.match`
without the `g` flag. -/
def firstHit (re : RE) (t : Str) : List Nat → Option (Nat × Nat)
  | [] => none
  | p :: ps =>
      match (matchEnds re t p).head? with
      | some e => some (p, e - p)
      | none => firstHit re t ps

/-- JS `text.match(re)` reduced to (index, length of `match[0]`). -/
def matchFirst (re : RE) (t : Str) : Option (Nat × Nat) :=
  firstHit re t (List.range (t.length + 1))

/-! Section: Well-formedness of the matcher -/

theorem runLen_le (k : CC) (t : Str) (p : Nat) : p + runLen k t p ≤ p + (t.length - p) := by
  have hpre : (t.drop p).takeWhile (ccMatch k) <+: t.drop p :=
    List.takeWhile_prefix _
  have h : runLen k t p ≤ t.length - p := by
    unfold runLen
    calc ((t.drop p).takeWhile (ccMatch k)).length ≤ (t.drop p).length :=
          hpre.length_le
      _ = t.length - p := List.length_drop _ _
  omega

theorem matchEnds_bounds (re : RE) (t : Str) (p : Nat) (hp : p ≤ t.length) :
    ∀ e ∈ matchEnds re t p, p ≤ e ∧ e ≤ t.length := by
  induction re generalizing p with
  | eps =>
    intro e he
    simp only [matchEnds, List.mem_singleton] at he
    omega
  | lit c =>
    intro e he
    simp only [matchEnds] at he
    cases hg : t.get? p with
    | none => rw [hg] at he; simp at he
    | some d =>
      rw [hg] at he
      have hlt : p < t.length := by
        by_contra hge
        have : t.get? p = none := List.get?_eq_none.mpr (by omega)
        rw [this] at hg; exact Option.noConfusion hg
      by_cases hd : eqCI d c = true
      · simp [hd] at he; omega
      · simp [hd] at he
  | cls k =>
    intro e he
    simp only [matchEnds] at he
    cases hg : t.get? p with
    | none => rw [hg] at he; simp at he
    | some d =>
      rw [hg] at he
      have hlt : p < t.length := by
        by_contra hge
        have : t.get? p = none := List.get?_eq_none.mpr (by omega)
        rw [this] at hg; exact Option.noConfusion hg
      by_cases hd : ccMatch k d = true
      · simp [hd] at he; omega
      · simp [hd] at he
  | seq a b iha ihb =>
    intro e he
    simp only [matchEnds, List.mem_flatMap] at he
    obtain ⟨m, hm, hme⟩ := he
    obtain ⟨h1, h2⟩ := iha p hp m hm
    obtain ⟨h3, h4⟩ := ihb m h2 e hme
    exact ⟨le_trans h1 h3, h4⟩
  | alt a b iha ihb =>
    intro e he
    simp only [matchEnds, List.mem_append] at he
    rcases he with h | h
    · exact iha p hp e h
    · exact ihb p hp e h
  | opt r ihr =>
    intro e he
    simp only [matchEnds, List.mem_append, List.mem_singleton] at he
    rcases he with h | h
    · exact ihr p hp e h
    · omega
  | starCls k lazy =>
    intro e he
    have hb := runLen_le k t p
    simp only [matchEnds] at he
    by_cases hl : lazy <;>
      simp only [hl, if_true, if_false, List.mem_reverse, List.mem_map,
        List.mem_range, Bool.false_eq_true] at he <;>
      · obtain ⟨i, hi, rfl⟩ := he
        omega
  | plusCls k lazy =>
    intro e he
    have hb := runLen_le k t p
    simp only [matchEnds] at he
    by_cases hl : lazy <;>
      simp only [hl, if_true, if_false, List.mem_reverse, List.mem_map,
        List.mem_range, Bool.false_eq_true] at he <;>
      · obtain ⟨i, hi, rfl⟩ := he
        omega
  | wb =>
    intro e he
    simp only [matchEnds] at he
    by_cases hbd : isBoundary t p = true
    · simp [hbd] at he; omega
    · simp [hbd] at he
  | nla r ihr =>
    intro e he
    simp only [matchEnds] at he
    by_cases hn : matchEnds r t p = []
    · simp [hn] at he; omega
    · simp [hn] at he

theorem firstHit_spec (re : RE) (t : Str) (ps : List Nat) (s l : Nat)
    (h : firstHit re t ps = some (s, l)) :
    s ∈ ps ∧ ∃ e, (matchEnds re t s).head? = some e ∧ l = e - s := by
  induction ps with
  | nil => simp [firstHit] at h
  | cons p ps ih =>
    simp only [firstHit] at h
    cases hh : (matchEnds re t p).head? with
    | some e =>
      rw [hh] at h
      simp only [Option.some.injEq, Prod.mk.injEq] at h
      obtain ⟨rfl, rfl⟩ := h
      exact ⟨List.mem_cons_self _ _, e, hh, rfl⟩
    | none =>
      rw [hh] at h
      obtain ⟨hm, he⟩ := ih h
      exact ⟨List.mem_cons_of_mem _ hm, he⟩

/-- Positions scanned before the reported one admit no match
(leftmost-match property of JS `match`). -/
theorem firstHit_leftmost (re : RE) (t : Str) (a n s l : Nat)
    (h : firstHit re t (List.range' a n) = some (s, l)) :
    ∀ q, a ≤ q → q < s → matchEnds re t q = [] := by
  induction n generalizing a with
  | zero => simp [List.range', firstHit] at h
  | succ n ih =>
    rw [List.range'_succ] at h
    simp only [firstHit] at h
    cases hh : (matchEnds re t a).head? with
    | some e =>
      rw [hh] at h
      simp only [Option.some.injEq, Prod.mk.injEq] at h
      obtain ⟨rfl, rfl⟩ := h
      intro q h1 h2
      omega
    | none =>
      rw [hh] at h
      intro q h1 h2
      rcases Nat.eq_or_lt_of_le h1 with rfl | hlt
      · exact List.head?_eq_none_iff.mp hh
      · exact ih (a + 1) h q hlt h2

theorem matchFirst_spec (re : RE) (t : Str) (s l : Nat)
    (h : matchFirst re t = some (s, l)) :
    s + l ≤ t.length ∧ (matchEnds re t s).head? = some (s + l) ∧
      ∀ q < s, matchEnds re t q = [] := by
  unfold matchFirst at h
  obtain ⟨hmem, e, hh, rfl⟩ := firstHit_spec re t _ s _ h
  have hs : s ≤ t.length := by
    simp only [List.mem_range] at hmem; omega
  have hme : e ∈ matchEnds re t s := List.mem_of_mem_head? hh
  obtain ⟨h1, h2⟩ := matchEnds_bounds re t s hs e hme
  have hrange : List.range (t.length + 1) = List.range' 0 (t.length + 1) :=
    List.range_eq_range' _
  rw [hrange] at h
  refine ⟨by omega, ?_, ?_⟩
  · have : s + (e - s) = e := by omega
    rw [this]; exact hh
  · intro q hq
    exact firstHit_leftmost re t 0 (t.length + 1) s (e - s) h q (Nat.zero_le _) hq

/-! Section: Pattern rule tables and `detectPatterns` -/

/-- Sequence a list of regexes. -/
def seqList (rs : List RE) : RE := rs.foldr RE.seq RE.eps

/-- A case-insensitive literal string regex. -/
def lits (s : String) : RE := seqList (s.data.map RE.lit)

/-- Left-to-right alternation `r₁|r₂|…`. -/
def altList (rs : List RE) : RE :=
  match rs with
  | [] => RE.eps
  | r :: rest => rest.foldl RE.alt r

/-- Alternation of literal words, e.g. `(tell|inform|alert)`. -/
def wordAlt (ws : List String) : RE := altList (ws.map lits)

/-- A rule of the pattern library: the compiled regex (`re`), the JS
regex source text (`source`, what `RegExp.prototype.toString` shows
between the delimiters), and the rule identifier (`name`). -/
structure Pattern where
  re : RE
  source : Str
  name : Str

/-- JS `pattern.toString().replace(/^\/|\/i$/g, '')`: serialise the `/…/i`
regex and strip the one leading `/` and the one trailing `/i`. -/
def regexToStringStripped (src : Str) : Str :=
  let s := '/' :: (src ++ ['/', 'i'])
  let s1 := match s with
    | '/' :: r => r
    | r => r
  match s1.reverse with
  | 'i' :: '/' :: r => r.reverse
  | _ => s1

/-- JS `text.substring(a, b)` for `a ≤ b` (the only direction used). -/
def slice (t : Str) (a b : Nat) : Str := (t.drop a).take (b - a)

/-- The ellipsis marker glued onto both context ends. -/
def dots : Str := strL "..."

/-- The match record pushed by `detectPatterns` for a rule firing at
index `s` with `match[0].length = l`. -/
def mkDetectionRec (p : Pattern) (t : Str) (s l : Nat) :
    Str × Str × Str × Str :=
  let startIndex := max 0 (s - 20)
  let endIndex := min t.length (s + l + 20)
  let context := slice t startIndex endIndex
  (p.name, regexToStringStripped p.source, slice t s (s + l),
    dots ++ context ++ dots)

/-- JS `DetectionMatch` as produced by `detectPatterns`
(`{type, pattern, match, context}`; `type_`/`match_` stand for the JS
keys `type`/`match`). -/
structure DetectionMatch where
  type_ : Str
  pattern : Str
  match_ : Str
  context : Str
  deriving DecidableEq

/-- Output shape `{detected: boolean, matches: DetectionMatch[]}`
(`matches_` stands for the JS key `matches`, which is reserved in Lean). -/
structure DetectResult where
  detected : Bool
  matches_ : List DetectionMatch
  deriving DecidableEq

/-- The JS object keys of a `DetectionMatch` literal, in push order. -/
def DetectionMatch.jsKeys (_ : DetectionMatch) : List Str :=
  [strL "type", strL "pattern", strL "match", strL "context"]

/-- JS `detectPatterns(text, patterns)` from `tool-analyzer.ts`: on falsy
`text` (absent or empty) returns the empty result; otherwise each rule
contributes at most one match (its first occurrence), with a ±20
character context window clipped to the text and wrapped in `'...'`. -/
def detectPatterns (text : Option Str) (patterns : List Pattern) :
    DetectResult :=
  match text with
  | none => ⟨false, []⟩
  | some t =>
    if t = [] then ⟨false, []⟩
    else
      let ms := patterns.filterMap (fun p =>
        (matchFirst p.re t).map (fun sl =>
          let r := mkDetectionRec p t sl.1 sl.2
          DetectionMatch.mk r.1 r.2.1 r.2.2.1 r.2.2.2))
      ⟨decide (0 < ms.length), ms⟩

/-- The hidden-instruction rule table (`detectHiddenInstructions`). -/
def hiddenInstructionPatterns : List Pattern := [
  { re := seqList [RE.wb, lits "do not ",
      wordAlt ["tell", "inform", "alert", "notify", "mention"],
      RE.nla (seqList [RE.plusCls CC.ws false,
        RE.opt (seqList [lits "to", RE.plusCls CC.ws false]), lits "use"])],
    source := strL "\\bdo not (tell|inform|alert|notify|mention)(?!\\s+(to\\s+)?use)",
    name := strL "Concealment directive" },
  { re := seqList [RE.wb, lits "hide this", RE.wb],
    source := strL "\\bhide this\\b",
    name := strL "Hide instruction" },
  { re := seqList [RE.wb, lits "not visible", RE.wb],
    source := strL "\\bnot visible\\b",
    name := strL "Visibility restriction" },
  { re := seqList [RE.wb, lits "user ",
      wordAlt ["should not", "must not", "cannot"], lits " see", RE.wb],
    source := strL "\\buser (should not|must not|cannot) see\\b",
    name := strL "User visibility restriction" },
  { re := seqList [RE.wb, lits "don", RE.opt (RE.lit apos), lits "t ",
      wordAlt ["show", "display", "reveal"]],
    source := strL "\\bdon" ++ [apos] ++ strL "?t (show|display|reveal)",
    name := strL "Display restriction" },
  { re := seqList [lits "<instructions>", RE.starCls CC.anyS true,
      lits "</instructions>"],
    source := strL "<instructions>[\\s\\S]*?<\\/instructions>",
    name := strL "Instructions tag" },
  { re := seqList [lits "<important>", RE.starCls CC.anyS true,
      lits "</important>"],
    source := strL "<important>[\\s\\S]*?<\\/important>",
    name := strL "Important tag" },
  { re := seqList [lits "<secret>", RE.starCls CC.anyS true, lits "</secret>"],
    source := strL "<secret>[\\s\\S]*?<\\/secret>",
    name := strL "Secret tag" },
  { re := seqList [lits "<system>", RE.starCls CC.anyS true, lits "</system>"],
    source := strL "<system>[\\s\\S]*?<\\/system>",
    name := strL "System tag" },
  { re := seqList [lits "<s>", RE.starCls CC.anyS true, lits "</s>"],
    source := strL "<s>[\\s\\S]*?<\\/s>",
    name := strL "Shorthand tag" },
  { re := seqList [RE.wb, lits "ignore ",
      wordAlt ["previous", "all", "other"], lits " instructions", RE.wb],
    source := strL "\\bignore (previous|all|other) instructions\\b",
    name := strL "Instruction override" },
  { re := seqList [RE.wb, lits "instead ",
      wordAlt ["do", "of", "you should"], RE.wb],
    source := strL "\\binstead (do|of|you should)\\b",
    name := strL "Alternative action" },
  { re := seqList [RE.wb, lits "always ",
      wordAlt ["do", "include", "add", "insert", "append"], RE.wb],
    source := strL "\\balways (do|include|add|insert|append)\\b",
    name := strL "Forced action" },
  { re := seqList [RE.wb, lits "never ",
      wordAlt ["tell", "show", "reveal", "disclose"], RE.wb],
    source := strL "\\bnever (tell|show|reveal|disclose)\\b",
    name := strL "Forbidden disclosure" }]

/-- JS `detectHiddenInstructions(toolDescription?)`. -/
def detectHiddenInstructions (toolDescription : Option Str) : DetectResult :=
  detectPatterns toolDescription hiddenInstructionPatterns

/-- The tool-shadowing rule table (`detectToolShadowing`). -/
def toolShadowingPatterns : List Pattern := [
  { re := seqList [lits "when", RE.starCls CC.any false, lits "tool is ",
      wordAlt ["available", "present"]],
    source := strL "when.*tool is (available|present)",
    name := strL "Condition-based override" },
  { re := lits "override the behavior of",
    source := strL "override the behavior of",
    name := strL "Explicit override" },
  { re := lits "instead of using",
    source := strL "instead of using",
    name := strL "Tool substitution" },
  { re := seqList [lits "modify the ", wordAlt ["usage", "behavior"],
      lits " of"],
    source := strL "modify the (usage|behavior) of",
    name := strL "Behavior modification" },
  { re := seqList [lits "before using ", wordAlt ["any", "other", "the"],
      lits " tool"],
    source := strL "before using (any|other|the) tool",
    name := strL "Pre-execution hook" },
  { re := seqList [lits "after using ", wordAlt ["any", "other", "the"],
      lits " tool"],
    source := strL "after using (any|other|the) tool",
    name := strL "Post-execution hook" },
  { re := seqList [lits "whenever you ", wordAlt ["see", "encounter", "use"]],
    source := strL "whenever you (see|encounter|use)",
    name := strL "Trigger-based action" },
  { re := seqList [lits "replace ", wordAlt ["the", "all"], lits " ",
      wordAlt ["function", "tool", "method"]],
    source := strL "replace (the|all) (function|tool|method)",
    name := strL "Replacement directive" },
  { re := seqList [RE.wb, lits "modify ", wordAlt ["the", "how"], lits " ",
      wordAlt ["agent", "model", "tool", "assistant"], RE.wb],
    source := strL "\\bmodify (the|how) (agent|model|tool|assistant)\\b",
    name := strL "Agent modification" },
  { re := seqList [RE.wb, lits "prioritize this", RE.wb],
    source := strL "\\bprioritize this\\b",
    name := strL "Priority override" },
  { re := seqList [RE.wb, lits "this is VERY ",
      wordAlt ["important", "VERY"]],
    source := strL "\\bthis is VERY (important|VERY)",
    name := strL "Emphasis override" }]

/-- JS `detectToolShadowing(toolDescription?)`. -/
def detectToolShadowing (toolDescription : Option Str) : DetectResult :=
  detectPatterns toolDescription toolShadowingPatterns

/-- The sensitive-file-access rule table (`detectSensitiveFileAccess`). -/
def sensitiveFilePatterns : List Pattern := [
  { re := lits "~/.ssh",
    source := strL "~\\/\\.ssh",
    name := strL "SSH key access" },
  { re := seqList [lits ".env", RE.wb],
    source := strL "\\.env\\b",
    name := strL "Environment file access" },
  { re := lits "config.json",
    source := strL "config\\.json",
    name := strL "Config file access" },
  { re := seqList [lits "id_rsa", RE.wb],
    source := strL "id_rsa\\b",
    name := strL "Private key access" },
  { re := lits ".cursor/mcp.json",
    source := strL "\\.cursor\\/mcp\\.json",
    name := strL "MCP config access" },
  { re := lits ".cursor/",
    source := strL "\\.cursor\\/",
    name := strL "Cursor directory access" },
  { re := seqList [RE.wb, lits "mcp.json", RE.wb],
    source := strL "\\bmcp\\.json\\b",
    name := strL "MCP config access" },
  { re := seqList [RE.wb, lits "credentials", RE.wb],
    source := strL "\\bcredentials\\b",
    name := strL "Credentials access" },
  { re := seqList [RE.wb, lits "password", RE.wb],
    source := strL "\\bpassword\\b",
    name := strL "Password access" },
  { re := seqList [RE.wb, lits "token", RE.wb],
    source := strL "\\btoken\\b",
    name := strL "Token access" },
  { re := seqList [RE.wb, lits "secret", RE.wb],
    source := strL "\\bsecret\\b",
    name := strL "Secret access" },
  { re := seqList [RE.wb, lits "api", RE.opt (RE.cls (CC.range ' ' '_')),
      lits "key", RE.wb],
    source := strL "\\bapi[ -_]?key\\b",
    name := strL "API key access" },
  { re := seqList [RE.wb, lits "access", RE.opt (RE.cls (CC.range ' ' '_')),
      lits "key", RE.wb],
    source := strL "\\baccess[ -_]?key\\b",
    name := strL "Access key retrieval" },
  { re := seqList [RE.wb, lits "auth", RE.opt (RE.cls (CC.range ' ' '_')),
      lits "token", RE.wb],
    source := strL "\\bauth[ -_]?token\\b",
    name := strL "Auth token access" },
  { re := seqList [lits "/etc/passwd", RE.wb],
    source := strL "\\/etc\\/passwd\\b",
    name := strL "System password file access" },
  { re := seqList [lits "/var/log", RE.wb],
    source := strL "\\/var\\/log\\b",
    name := strL "System log access" },
  { re := seqList [RE.wb, lits "read ",
      wordAlt ["file", "content", "directory", "folder"]],
    source := strL "\\bread (file|content|directory|folder)",
    name := strL "File read operation" },
  { re := seqList [RE.wb, lits "access ",
      wordAlt ["file", "content", "directory", "folder"]],
    source := strL "\\baccess (file|content|directory|folder)",
    name := strL "File access operation" },
  { re := lits "..",
    source := strL "\\.\\.",
    name := strL "Path traversal attempt" }]

/-- JS `detectSensitiveFileAccess(toolDescription?)`. -/
def detectSensitiveFileAccess (toolDescription : Option Str) : DetectResult :=
  detectPatterns toolDescription sensitiveFilePatterns

/-! Section: JSON values and `detectExfiltrationChannels` -/

/-- JSON values, as delivered in MCP `inputSchema` objects.  Numbers are
modelled by integers (all schema numerics in scope are integral). -/
inductive Js
  | null
  | bool (b : Bool)
  | num (n : Int)
  | str (s : Str)
  | arr (xs : List Js)
  | obj (kvs : List (Str × Js))

/-- JS truthiness of a JSON value. -/
def jsTruthy (v : Js) : Bool :=
  match v with
  | .null => false
  | .bool b => b
  | .num n => n ≠ 0
  | .str s => s ≠ []
  | .arr _ => true
  | .obj _ => true

/-- First-binding lookup in an object (JS objects hold unique keys; the
embedding tolerates duplicate-key lists by taking the first). -/
def lookupStr (kvs : List (Str × Js)) (k : Str) : Option Js :=
  match kvs with
  | [] => none
  | (k', v) :: rest => if k' = k then some v else lookupStr rest k

/-- Parse a canonical decimal array/string index (JS integer-index key). -/
def decIndex? (k : Str) : Option Nat :=
  if k ≠ [] ∧ k.all (fun c => '0' ≤ c ∧ c ≤ '9') ∧
      (k = ['0'] ∨ k.head? ≠ some '0') then
    some (k.foldl (fun a c => a * 10 + (c.toNat - 48)) 0)
  else none

/-- JS `v[k]` member access.  `ok none` is JS `undefined`; member access on
`null` throws a `TypeError` (`error`). -/
def jsGet (v : Js) (k : Str) : Except Unit (Option Js) :=
  match v with
  | .null => .error ()
  | .obj kvs => .ok (lookupStr kvs k)
  | .str s => .ok ((decIndex? k).bind (fun i => (s.get? i).map (fun c => Js.str [c])))
  | .arr xs => .ok ((decIndex? k).bind (fun i => xs.get? i))
  | _ => .ok none

/-- JS `Object.keys`. -/
def jsObjectKeys (v : Js) : List Str :=
  match v with
  | .obj kvs => kvs.map Prod.fst
  | .str s => (List.range s.length).map (fun i => strL (Nat.repr i))
  | .arr xs => (List.range xs.length).map (fun i => strL (Nat.repr i))
  | _ => []

/-- Spaces of a JSON indentation level. -/
def padN (n : Nat) : Str := List.replicate n ' '

/-- A hexadecimal digit. -/
def hexDigit (n : Nat) : Char :=
  if n < 10 then Char.ofNat (48 + n) else Char.ofNat (97 + (n - 10))

/-- JS `JSON.stringify` escaping of one string character. -/
def escJsonChar (c : Char) : Str :=
  if c = '"' then strL "\\\"" else if c = '\\' then strL "\\\\"
  else if c = '\n' then strL "\\n" else if c = '\r' then strL "\\r"
  else if c = '\t' then strL "\\t" else if c = Char.ofNat 8 then strL "\\b"
  else if c = Char.ofNat 12 then strL "\\f"
  else if c.toNat < 32 then
    strL "\\u00" ++ [hexDigit (c.toNat / 16), hexDigit (c.toNat % 16)]
  else [c]

/-- JS `JSON.stringify` of a string. -/
def quoteJson (s : Str) : Str := '"' :: (s.flatMap escJsonChar ++ ['"'])

mutual

/-- JS `JSON.stringify(v, null, 2)` at nesting indentation `ind`. -/
def jsonStringify2 : Js → Nat → Str
  | .null, _ => strL "null"
  | .bool b, _ => strL (if b then "true" else "false")
  | .num n, _ => strL (toString n)
  | .str s, _ => quoteJson s
  | .arr xs, ind =>
      match xs with
      | [] => strL "[]"
      | _ => '[' :: '\n' ::
          (jsonArrItems xs (ind + 2) ++ '\n' :: (padN ind ++ [']']))
  | .obj kvs, ind =>
      match kvs with
      | [] => strL "\x7b\x7d"
      | _ => '\x7b' :: '\n' ::
          (jsonObjItems kvs (ind + 2) ++ '\n' :: (padN ind ++ ['\x7d']))

/-- Array elements, comma/newline separated, each on an indented line. -/
def jsonArrItems : List Js → Nat → Str
  | [], _ => []
  | [x], ind => padN ind ++ jsonStringify2 x ind
  | x :: y :: xs, ind =>
      padN ind ++ jsonStringify2 x ind ++ ',' :: '\n' :: jsonArrItems (y :: xs) ind

/-- Object entries, comma/newline separated, each on an indented line. -/
def jsonObjItems : List (Str × Js) → Nat → Str
  | [], _ => []
  | [(k, v)], ind => padN ind ++ quoteJson k ++ ':' :: ' ' :: jsonStringify2 v ind
  | (k, v) :: p :: kvs, ind =>
      padN ind ++ quoteJson k ++ ':' :: ' ' :: jsonStringify2 v ind ++
        ',' :: '\n' :: jsonObjItems (p :: kvs) ind

end

/-- The fixed vocabulary of suspicious parameter names. -/
def suspiciousParams : List Str :=
  [strL "note", strL "notes", strL "feedback", strL "details", strL "extra",
   strL "additional", strL "metadata", strL "debug", strL "sidenote",
   strL "context", strL "annotation", strL "reasoning", strL "remark"]

/-- The match record `detectExfiltrationChannels` pushes:
`{type, param, paramType, reason, details}` — it carries no `pattern`,
`match` or `context` field. -/
structure ExfilMatch where
  type_ : Str
  param : Str
  paramType : Js
  reason : Str
  details : Str

/-- The JS object keys of an `ExfilMatch` literal, in push order. -/
def ExfilMatch.jsKeys (_ : ExfilMatch) : List Str :=
  [strL "type", strL "param", strL "paramType", strL "reason", strL "details"]

/-- Output shape of `detectExfiltrationChannels`. -/
structure ExfilResult where
  detected : Bool
  matches_ : List ExfilMatch

/-- Body of the `for (const paramName of Object.keys(...))` loop for one
suspicious key: `paramDetails = properties[paramName]`, then
`paramDetails.type` — which throws when the property value is `null` (or
when the member lookup yielded `undefined`), hence the `Except`. -/
def exfilStep (props : Js) (k : Str) : Except Unit ExfilMatch :=
  match jsGet props k with
  | .error e => .error e
  | .ok none => .error ()
  | .ok (some paramDetails) =>
    match jsGet paramDetails (strL "type") with
    | .error e => .error e
    | .ok tyOpt =>
      let paramType := match tyOpt with
        | some ty => if jsTruthy ty then ty else Js.str (strL "unknown")
        | none => Js.str (strL "unknown")
      .ok {
        type_ := strL "Suspicious parameter",
        param := k,
        paramType := paramType,
        reason := strL "Parameter name " ++ [apos] ++ k ++ [apos] ++
          strL " could be used for exfiltration",
        details := jsonStringify2 paramDetails 0 }

/-- The `for (const paramName of Object.keys(...))` loop: non-suspicious
keys are skipped, each suspicious key contributes one match (or throws
inside `exfilStep`). -/
def exfilLoop (props : Js) : List Str → Except Unit (List ExfilMatch)
  | [] => .ok []
  | k :: ks =>
      if suspiciousParams.contains (lowerS k) then
        match exfilStep props k with
        | .error e => .error e
        | .ok m => (exfilLoop props ks).map (m :: ·)
      else exfilLoop props ks

/-- JS `detectExfiltrationChannels(toolInputSchema?)` from
`tool-analyzer.ts`. -/
def detectExfiltrationChannels (toolInputSchema : Option Js) :
    Except Unit ExfilResult :=
  match toolInputSchema with
  | none => .ok ⟨false, []⟩
  | some s =>
    if !jsTruthy s then .ok ⟨false, []⟩
    else
      match jsGet s (strL "properties") with
      | .error e => .error e
      | .ok none => .ok ⟨false, []⟩
      | .ok (some props) =>
        if !jsTruthy props then .ok ⟨false, []⟩
        else
          match exfilLoop props (jsObjectKeys props) with
          | .error e => .error e
          | .ok ms => .ok ⟨decide (0 < ms.length), ms⟩

/-! Section: Cross-origin correlator -/

/-- The fixed well-known-server identifier list. -/
def POPULAR_MCP_SERVERS : List Str :=
  [strL "whatsapp", strL "slack", strL "github", strL "gitlab", strL "gdrive"]

mutual

/-- JS `str.split(/\s+/)`, accumulating the current piece (reversed): pieces
between maximal whitespace runs, with an empty leading/trailing piece
when the string starts/ends with whitespace, and `[""]` on the empty
string. -/
def splitWsGo (acc : Str) : Str → List Str
  | [] => [acc.reverse]
  | c :: cs =>
      if isJsWs c then acc.reverse :: splitWsSkip cs
      else splitWsGo (c :: acc) cs

/-- Skip the rest of a whitespace run, then resume collecting. -/
def splitWsSkip : Str → List Str
  | [] => [[]]
  | c :: cs =>
      if isJsWs c then splitWsSkip cs
      else splitWsGo [c] cs

end

/-- JS `toolDescription.toLowerCase().split(/\s+/)`. -/
def splitWs (s : Str) : List Str := splitWsGo [] s

/-- Clean a token (`token.replace(/^\((.*)\)$/, '$1')` then
`replace(/_/g, '-')`): strip one enclosing parenthesis pair if present,
then turn underscores into hyphens. -/
def cleanToken (tok : Str) : Str :=
  let stripped :=
    match tok with
    | '(' :: rest =>
        match rest.reverse with
        | ')' :: mid => mid.reverse
        | _ => tok
    | _ => tok
  stripped.map (fun c => if c = '_' then '-' else c)

/-- An escape `\c` as a regex atom, paired with its character class when
it is a single-character atom (and hence quantifiable). -/
def escAtom (c : Char) : Option (RE × Option CC) :=
  if c = 'b' then some (RE.wb, none)
  else if c = 's' then some (RE.cls CC.ws, some CC.ws)
  else if c = 'S' then some (RE.cls CC.nws, some CC.nws)
  else if c = 'd' then some (RE.cls CC.digit, some CC.digit)
  else if c = 'D' then some (RE.cls CC.ndigit, some CC.ndigit)
  else if c = 'w' then some (RE.cls CC.word, some CC.word)
  else if c = 'W' then some (RE.cls CC.nword, some CC.nword)
  else if c = 'n' then some (RE.lit '\n', some (CC.single '\n'))
  else if c = 't' then some (RE.lit '\t', some (CC.single '\t'))
  else if c = 'r' then some (RE.lit '\r', some (CC.single '\r'))
  else if c.isAlphanum then none
  else some (RE.lit c, some (CC.single c))

/-- Body of a `[...]` character class, after the `[`; returns component
classes and the rest after `]`.  `none`: unterminated class or dangling
escape (JS `SyntaxError`) or a feature outside the modelled subset. -/
def pClassBody : Nat → Str → Option (List CC × Str)
  | 0, _ => none
  | _ + 1, [] => none
  | _ + 1, ']' :: r => some ([], r)
  | f + 1, '\\' :: rest =>
      (match rest with
      | [] => none
      | c :: r =>
        let item? : Option CC :=
          if c = 's' then some CC.ws else if c = 'S' then some CC.nws
          else if c = 'd' then some CC.digit else if c = 'D' then some CC.ndigit
          else if c = 'w' then some CC.word else if c = 'W' then some CC.nword
          else if c = 'n' then some (CC.single '\n')
          else if c = 't' then some (CC.single '\t')
          else if c = 'r' then some (CC.single '\r')
          else if c.isAlphanum then none
          else some (CC.single c)
        match item? with
        | none => none
        | some item => (pClassBody f r).map (fun p => (item :: p.1, p.2)))
  | f + 1, a :: '-' :: b :: r =>
      if b = ']' then
        (pClassBody f (']' :: r)).map
          (fun p => (CC.single a :: CC.single '-' :: p.1, p.2))
      else if b = '\\' then none
      else if a.toNat ≤ b.toNat then
        (pClassBody f r).map (fun p => (CC.range a b :: p.1, p.2))
      else none
  | f + 1, a :: r =>
      (pClassBody f r).map (fun p => (CC.single a :: p.1, p.2))

/-- Apply an optional postfix quantifier to a parsed atom (`k?` names the
atom's character class when it is a single-character atom; star and plus
are modelled on those only). -/
def pQuantApply (atom : RE) (k? : Option CC) (rest : Str) :
    Option (RE × Str) :=
  match rest with
  | [] => some (atom, [])
  | q :: r =>
      if q = '*' then
        match k? with
        | none => none
        | some k =>
          match r with
          | [] => some (RE.starCls k false, [])
          | r1 :: r2 =>
            if r1 = '?' then some (RE.starCls k true, r2)
            else some (RE.starCls k false, r1 :: r2)
      else if q = '+' then
        match k? with
        | none => none
        | some k =>
          match r with
          | [] => some (RE.plusCls k false, [])
          | r1 :: r2 =>
            if r1 = '?' then some (RE.plusCls k true, r2)
            else some (RE.plusCls k false, r1 :: r2)
      else if q = '?' then
        match r with
        | [] => some (RE.opt atom, [])
        | r1 :: r2 =>
          if r1 = '?' then none else some (RE.opt atom, r1 :: r2)
      else if q = Char.ofNat 123 then none
      else some (atom, q :: r)

/-- Parse a `[...]` class atom (after the `[`); negated classes are
outside the modelled subset. -/
def pClassAtom (f : Nat) (rest : Str) : Option (RE × Option CC × Str) :=
  if rest.head? = some '^' then none
  else
    match pClassBody f rest with
    | none => none
    | some (items, rest2) =>
      match items with
      | [] => some (RE.nla RE.eps, none, rest2)
      | [k] => some (RE.cls k, some k, rest2)
      | k :: k2 :: ks => some (altList ((k :: k2 :: ks).map RE.cls), none, rest2)

/-- Parse an escape atom (after the `\`); a dangling `\` is a JS
`SyntaxError`. -/
def pEsc (rest : Str) : Option (RE × Option CC × Str) :=
  match rest with
  | [] => none
  | e :: rest2 =>
    match escAtom e with
    | none => none
    | some ak => some (ak.1, ak.2, rest2)

mutual

/-- Parse a sequence of quantified atoms, stopping before `)`/`|`/end.
The fuel strictly decreases at every call so that the mutual recursion
is structural; `compileToken` supplies ample fuel. -/
def pSeq : Nat → Str → Option (List RE × Str)
  | 0, _ => none
  | _ + 1, [] => some ([], [])
  | f + 1, c :: rest =>
      if c = ')' ∨ c = '|' then some ([], c :: rest)
      else
        match pAtom f c rest with
        | none => none
        | some (atom, k?, rest1) =>
          match pQuantApply atom k? rest1 with
          | none => none
          | some (atom2, rest2) =>
            match pSeq f rest2 with
            | none => none
            | some (atoms, rest3) => some (atom2 :: atoms, rest3)

/-- Parse one atom beginning with character `c` (`rest` follows `c`):
groups, classes, escapes, `.`, or a plain literal character; anchors and
misplaced quantifiers are rejected. -/
def pAtom : Nat → Char → Str → Option (RE × Option CC × Str)
  | 0, _, _ => none
  | f + 1, c, rest =>
      if c = '(' then pGroup f rest
      else if c = '[' then pClassAtom f rest
      else if c = '\\' then pEsc rest
      else if c = '.' then some (RE.cls CC.any, some CC.any, rest)
      else if c = '^' ∨ c = '$' then none
      else if c = '*' ∨ c = '+' ∨ c = '?' ∨ c = Char.ofNat 123 ∨
          c = Char.ofNat 125 then none
      else some (RE.lit c, some (CC.single c), rest)

/-- Parse a `(...)` group atom (after the `(`); `(?` forms (lookarounds,
non-capturing groups) are outside the modelled subset, and a group whose
alternatives are not followed by `)` is a JS `SyntaxError`. -/
def pGroup : Nat → Str → Option (RE × Option CC × Str)
  | 0, _ => none
  | f + 1, rest =>
      if rest.head? = some '?' then none
      else
        match pAlts f rest with
        | none => none
        | some (r, rest2) =>
          match rest2 with
          | [] => none
          | r0 :: rest3 => if r0 = ')' then some (r, none, rest3) else none

/-- Parse `|`-separated alternatives inside a group. -/
def pAlts : Nat → Str → Option (RE × Str)
  | 0, _ => none
  | f + 1, s =>
      match pSeq f s with
      | none => none
      | some (atoms, rest) =>
        match rest with
        | [] => some (seqList atoms, [])
        | r0 :: rest2 =>
          if r0 = '|' then
            match pAlts f rest2 with
            | none => none
            | some (r2, rest3) => some (RE.alt (seqList atoms) r2, rest3)
          else some (seqList atoms, r0 :: rest2)

end

/-- Compile `new RegExp('\\b' + token + '\\b', 'i')`.  `none` models a
thrown `SyntaxError` (unbalanced group or class, dangling escape,
quantifier with nothing to repeat); regex features a token could contain
that are outside the modelled subset (lookarounds, anchors, quantified
multi-character groups, `{n,m}`, backreferences, top-level alternation,
negated classes) are also mapped to `none` — no theorem below evaluates
the correlator on such a token. -/
def compileToken (token : Str) : Option RE :=
  match pSeq (8 * token.length + 8) token with
  | some (atoms, []) => some (seqList (RE.wb :: (atoms ++ [RE.wb])))
  | _ => none

/-- A cross-origin match record
`{type, pattern, match, context, referencedServer}`. -/
structure CrossMatch where
  type_ : Str
  pattern : Str
  match_ : Str
  context : Str
  referencedServer : Option Str
  deriving DecidableEq

/-- Output shape of `detectCrossOriginViolations`. -/
structure CrossResult where
  detected : Bool
  matches_ : List CrossMatch
  deriving DecidableEq

/-- The token loop of `detectCrossOriginViolations`: for each token of
the lower-cased description whose cleaned form is flagged, build the
`\btoken\b` regex from the original token (this `new RegExp` can throw)
and re-locate it in the original description; a hit pushes one match. -/
def crossTokenLoop (d : Str) (combined flagged : List Str) :
    List Str → Except Unit (List CrossMatch)
  | [] => .ok []
  | tok :: toks =>
      let cleanedToken := cleanToken tok
      if flagged.contains cleanedToken then
        match compileToken tok with
        | none => .error ()
        | some re =>
          match matchFirst re d with
          | none => crossTokenLoop d combined flagged toks
          | some (s, l) =>
            let startIndex := max 0 (s - 20)
            let endIndex := min d.length (s + l + 20)
            let m : CrossMatch := {
              type_ := strL "Cross-origin reference",
              pattern := regexToStringStripped (strL "\\b" ++ tok ++ strL "\\b"),
              match_ := slice d s (s + l),
              context := dots ++ slice d startIndex endIndex ++ dots,
              referencedServer := combined.find? (fun name =>
                (lowerS name).map (fun c => if c = '_' then '-' else c) =
                  cleanedToken) }
            (crossTokenLoop d combined flagged toks).map (m :: ·)
      else crossTokenLoop d combined flagged toks

/-- JS `combinedServerNames`: the other discovered server names minus the
safe-listed ones, followed by `relevantPopularServers` — the fixed
popular list minus the current server name (strict `!==`). -/
def combinedNames (otherServerNames : Option (List Str))
    (currentServerName : Str) (safeList : Option (List Str)) : List Str :=
  ((otherServerNames.getD []).filter (fun name =>
    match safeList with
    | none => true
    | some sl => !sl.contains name)) ++
  POPULAR_MCP_SERVERS.filter (fun popularName => popularName ≠ currentServerName)

/-- Tokenise the lower-cased description, run the token loop, and wrap
the matches into the result record. -/
def crossFinish (d : Str) (comb : List Str) : Except Unit CrossResult :=
  match crossTokenLoop d comb (comb.map lowerS) (splitWs (lowerS d)) with
  | .error e => .error e
  | .ok ms => .ok ⟨decide (0 < ms.length), ms⟩

/-- JS `detectCrossOriginViolations(toolDescription, otherServerNames,
currentServerName, safeList?)` from `tool-analyzer.ts`. -/
def detectCrossOriginViolations (toolDescription : Option Str)
    (otherServerNames : Option (List Str)) (currentServerName : Str)
    (safeList : Option (List Str)) : Except Unit CrossResult :=
  match toolDescription with
  | none => .ok ⟨false, []⟩
  | some d =>
    if d = [] then .ok ⟨false, []⟩
    else
      if combinedNames otherServerNames currentServerName safeList = [] then
        .ok ⟨false, []⟩
      else
        crossFinish d (combinedNames otherServerNames currentServerName safeList)

/-! Section: `getTools` (`src/utils/server-connectors.ts`)

The connection attempt, the `listTools` call and the two `client.close()`
calls are asynchronous interactions with an external server; the
embedding makes their outcomes explicit inputs (`ConnEnv`), turning
`getTools` into a function of the configuration and those outcomes.  The
`Promise.race` of the connection promise against the 30-second timer is
represented by `RaceOutcome`: whichever settles first is the value of
`ConnEnv.race`. -/

/-- A tool as returned by `client.listTools()`. -/
structure Tool where
  name : Str
  description : Option Str
  inputSchema : Option Js

/-- Configuration of one server entry. -/
structure ServerConfig where
  url : Option Str
  command : Option Str
  args : Option (List Str)
  env : Option (List (Str × Str))

/-- Which of the raced promises settles first, and how. -/
inductive RaceOutcome
  /-- the connection promise fulfils first -/
  | connected
  /-- the connection promise rejects first, with this error message -/
  | connectFailed (msg : Str)
  /-- the 30-second timer fires first (`Connection timeout`) -/
  | timedOut

/-- Outcomes of the external interactions inside `getTools`:
the race, the `listTools` call (whose `tools` field may be absent),
and the two `close()` calls (`some msg` = the close call rejects). -/
structure ConnEnv where
  race : RaceOutcome
  listToolsResult : Except Str (Option (List Tool))
  closeMid : Option Str
  closeFinal : Option Str

/-- Result of a `getTools` run: the returned value or thrown error, and
how many times `client.close()` was invoked. -/
structure GetToolsRun where
  result : Except Str (List Tool)
  closeCalls : Nat

/-- JS `const connectionTimeout = 30_000` (milliseconds). -/
def connectionTimeout : Nat := 30000

/-- JS `const isSSE = !!configUrl` (truthiness of `serverConfig.url`). -/
def cfgIsSSE (cfg : ServerConfig) : Bool :=
  match cfg.url with
  | some u => u ≠ []
  | none => false

/-- Truthiness of `serverConfig.command`. -/
def cfgHasCommand (cfg : ServerConfig) : Bool :=
  match cfg.command with
  | some c => c ≠ []
  | none => false

/-- JS `${serverConfig.url || serverConfig.command}` in the error messages. -/
def targetName (cfg : ServerConfig) : Str :=
  match cfg.url with
  | some u => if u ≠ [] then u else (cfg.command.getD (strL "undefined"))
  | none => cfg.command.getD (strL "undefined")

/-- The timeout error thrown by `getTools`. -/
def timeoutMsg (cfg : ServerConfig) : Str :=
  strL "Connection to " ++ targetName cfg ++
    strL " timed out. Please check if the server is running and accessible."

/-- The generic connection-failure error thrown by `getTools`. -/
def failMsg (cfg : ServerConfig) (m : Str) : Str :=
  strL "Failed to connect to " ++ targetName cfg ++ strL ": " ++ m

/-- JS `getTools(serverConfig, identifyAs?)`: validate the configuration,
race `client.connect` against the 30-second timer, list the tools,
close the client, and close it again in the `finally` block (where a
close rejection is swallowed).  `identifyAs` only renames the client and
does not influence the result shape. -/
def getTools (cfg : ServerConfig) (env : ConnEnv) : GetToolsRun :=
  if !cfgIsSSE cfg && !cfgHasCommand cfg then
    -- thrown before the try/finally: no transport, no close
    ⟨.error (strL "Missing command for STDIO server"), 0⟩
  else
    match env.race with
    | .timedOut => ⟨.error (timeoutMsg cfg), 1⟩
    | .connectFailed m => ⟨.error (failMsg cfg m), 1⟩
    | .connected =>
      match env.listToolsResult with
      | .error m => ⟨.error (failMsg cfg m), 1⟩
      | .ok tools? =>
        match env.closeMid with
        | some m =>
            -- the pre-return close rejected: caught by the generic
            -- handler, then closed once more in the finally block
            ⟨.error (failMsg cfg m), 2⟩
        | none => ⟨.ok (tools?.getD []), 2⟩

/-! Section: `analyzeWithClaude` (`src/analyzers/claude-analyzer.ts`)

The Anthropic / Bedrock message call is an external interaction; its
outcome (the response text of `response.content[0].text`, or a thrown
error's message) is the explicit input `apiOutcome`. -/

/-- Risk labels. -/
inductive Risk
  | HIGH
  | MEDIUM
  | LOW
  deriving DecidableEq

/-- Result record of `analyzeWithClaude`. -/
structure ClaudeResult where
  analysis : Str
  overallRisk : Option Risk
  deriving DecidableEq

/-- The no-credentials degradation message. -/
def noKeyMsg : Str := strL "Claude analysis unavailable (no API key provided)"

/-- JS `haystack.includes(needle)`: contiguous-substring test. -/
def containsSub (hay needle : Str) : Bool := decide (needle <:+: hay)

/-- JS `text.includes('HIGH') ? 'HIGH' : … : null` (case-sensitive). -/
def extractRisk (text : Str) : Option Risk :=
  if containsSub text (strL "HIGH") then some .HIGH
  else if containsSub text (strL "MEDIUM") then some .MEDIUM
  else if containsSub text (strL "LOW") then some .LOW
  else none

/-- JS `analyzeWithClaude(toolDescription, apiKey?, useBedrock?)`: with no
truthy API key and no Bedrock flag it degrades to a null opinion; any
error thrown inside the `try` (modelled by `apiOutcome = .error`) is
caught and reported as an analysis record with null risk. -/
def apiKeyTruthy (apiKey : Option Str) : Bool :=
  match apiKey with
  | some k => k ≠ []
  | none => false

def analyzeWithClaude (toolDescription : Str) (apiKey : Option Str)
    (useBedrock : Bool) (apiOutcome : Except Str Str) : ClaudeResult :=
  if !apiKeyTruthy apiKey && !useBedrock then
    ⟨noKeyMsg, none⟩
  else
    match apiOutcome with
    | .error m => ⟨strL "Error using Claude API: " ++ m, none⟩
    | .ok text => ⟨text, extractRisk text⟩

/-! Section: Shared lemmas about `detectPatterns` -/

theorem detectPatterns_mem {t : Str} {ps : List Pattern} {m : DetectionMatch}
    (hm : m ∈ (detectPatterns (some t) ps).matches_) :
    ∃ p ∈ ps, ∃ s l, matchFirst p.re t = some (s, l) ∧
      m = ⟨p.name, regexToStringStripped p.source, slice t s (s + l),
        dots ++ slice t (max 0 (s - 20)) (min t.length (s + l + 20)) ++ dots⟩ := by
  unfold detectPatterns at hm
  by_cases ht : t = []
  · simp [ht] at hm
  · simp only [if_neg ht, List.mem_filterMap] at hm
    obtain ⟨p, hp, hf⟩ := hm
    rw [Option.map_eq_some'] at hf
    obtain ⟨⟨s, l⟩, hsl, hmk⟩ := hf
    refine ⟨p, hp, s, l, hsl, ?_⟩
    rw [← hmk]
    simp [mkDetectionRec]

theorem slice_infix_window (t : Str) (s l a b : Nat) (ha : a ≤ s)
    (hb : s + l ≤ b) :
    slice t s (s + l) <:+: slice t a b := by
  have key : slice t s (s + l) = ((slice t a b).drop (s - a)).take l := by
    unfold slice
    rw [List.drop_take, List.drop_drop]
    have h1 : a + (s - a) = s := by omega
    have h2 : b - a - (s - a) = b - s := by omega
    rw [h1, h2, List.take_take]
    have h3 : min l (b - s) = l := by omega
    have h4 : s + l - s = l := by omega
    rw [h3, h4]
  rw [key]
  refine ⟨(slice t a b).take (s - a), ((slice t a b).drop (s - a)).drop l, ?_⟩
  rw [List.append_assoc, List.take_append_drop, List.take_append_drop]

theorem detectPatterns_context_contains {t : Str} {ps : List Pattern}
    {m : DetectionMatch} (hm : m ∈ (detectPatterns (some t) ps).matches_) :
    m.match_ <:+: m.context := by
  obtain ⟨p, hp, s, l, hsl, rfl⟩ := detectPatterns_mem hm
  have hb := (matchFirst_spec _ _ _ _ hsl).1
  have h1 : slice t s (s + l) <:+:
      slice t (max 0 (s - 20)) (min t.length (s + l + 20)) :=
    slice_infix_window _ _ _ _ _ (by omega) (by omega)
  obtain ⟨u, v, huv⟩ := h1
  refine ⟨dots ++ u, v ++ dots, ?_⟩
  rw [← huv]
  simp [List.append_assoc]

theorem detectPatterns_detected_iff (t? : Option Str) (ps : List Pattern) :
    (detectPatterns t? ps).detected = true ↔
      (detectPatterns t? ps).matches_ ≠ [] := by
  cases t? with
  | none => simp [detectPatterns]
  | some t =>
    by_cases ht : t = []
    · simp [detectPatterns, ht]
    · simp only [detectPatterns, if_neg ht, decide_eq_true_eq]
      rw [List.length_pos]

theorem detectPatterns_no_hit (t : Str) (ps : List Pattern)
    (h : ∀ p ∈ ps, matchFirst p.re t = none) :
    detectPatterns (some t) ps = ⟨false, []⟩ := by
  unfold detectPatterns
  by_cases ht : t = []
  · simp [ht]
  · simp only [if_neg ht]
    have : ps.filterMap (fun p =>
        (matchFirst p.re t).map (fun sl =>
          let r := mkDetectionRec p t sl.1 sl.2
          DetectionMatch.mk r.1 r.2.1 r.2.2.1 r.2.2.2)) = [] := by
      rw [List.filterMap_eq_nil_iff]
      intro p hp
      rw [h p hp]
      rfl
    rw [this]
    rfl

/-! Section: Result-shape lemmas for the fallible detectors -/

theorem detectExfil_ok_shape (s : Option Js) (r : ExfilResult)
    (h : detectExfiltrationChannels s = .ok r) :
    r.detected = true ↔ r.matches_ ≠ [] := by
  unfold detectExfiltrationChannels at h
  repeat' split at h
  all_goals simp_all [List.length_pos]
  all_goals (cases h; simp [List.length_pos])

theorem detectCross_ok_shape (d : Option Str) (o : Option (List Str))
    (c : Str) (sl : Option (List Str)) (r : CrossResult)
    (h : detectCrossOriginViolations d o c sl = .ok r) :
    r.detected = true ↔ r.matches_ ≠ [] := by
  unfold detectCrossOriginViolations at h
  split at h
  · cases h
    simp
  · split at h
    · cases h
      simp
    · split at h
      · cases h
        simp
      · unfold crossFinish at h
        split at h
        · cases h
        · cases h
          simp [List.length_pos]

/-! Section: Lemmas about the exfiltration loop -/

/-- A schema of the canonical shape `{properties: {…}}`. -/
def schemaWithProps (pkvs : List (Str × Js)) : Option Js :=
  some (Js.obj [(strL "properties", Js.obj pkvs)])

theorem detectExfil_props_eq (pkvs : List (Str × Js)) :
    detectExfiltrationChannels (schemaWithProps pkvs) =
      match exfilLoop (Js.obj pkvs) (pkvs.map Prod.fst) with
      | .error e => .error e
      | .ok ms => .ok ⟨decide (0 < ms.length), ms⟩ := rfl

theorem lookupStr_mem {pkvs : List (Str × Js)} {k : Str} {v : Js}
    (h : lookupStr pkvs k = some v) : (k, v) ∈ pkvs := by
  induction pkvs with
  | nil => simp [lookupStr] at h
  | cons kv rest ih =>
    obtain ⟨k', v'⟩ := kv
    by_cases he : k' = k
    · subst he
      simp [lookupStr] at h
      simp [h]
    · simp [lookupStr, he] at h
      exact List.mem_cons_of_mem _ (ih h)

theorem lookupStr_isSome_of_mem {pkvs : List (Str × Js)} {k : Str}
    (h : k ∈ pkvs.map Prod.fst) : ∃ v, lookupStr pkvs k = some v := by
  induction pkvs with
  | nil => simp at h
  | cons kv rest ih =>
    obtain ⟨k', v'⟩ := kv
    by_cases he : k' = k
    · subst he
      exact ⟨v', by simp [lookupStr]⟩
    · rw [List.map_cons, List.mem_cons] at h
      rcases h with h | h
      · exact absurd h.symm he
      · obtain ⟨v, hv⟩ := ih h
        exact ⟨v, by simp [lookupStr, he, hv]⟩

theorem lookupStr_eq_of_mem_nodup {pkvs : List (Str × Js)} {k : Str} {v : Js}
    (hnd : (pkvs.map Prod.fst).Nodup) (h : (k, v) ∈ pkvs) :
    lookupStr pkvs k = some v := by
  induction pkvs with
  | nil => simp at h
  | cons kv rest ih =>
    obtain ⟨k', v'⟩ := kv
    simp only [List.map_cons, List.nodup_cons] at hnd
    rcases List.mem_cons.mp h with he | hm
    · cases he
      simp [lookupStr]
    · have hk : k' ≠ k := by
        intro hkk
        subst hkk
        exact hnd.1 (List.mem_map.mpr ⟨(k', v), hm, rfl⟩)
      simp [lookupStr, hk]
      exact ih hnd.2 hm

theorem exfilStep_error_iff (pkvs : List (Str × Js)) (k : Str) :
    exfilStep (Js.obj pkvs) k = .error () ↔
      lookupStr pkvs k = none ∨ lookupStr pkvs k = some Js.null := by
  unfold exfilStep
  have hget : jsGet (Js.obj pkvs) k = .ok (lookupStr pkvs k) := rfl
  rw [hget]
  cases hl : lookupStr pkvs k with
  | none => simp
  | some v => cases v <;> simp [jsGet]

theorem exfilLoop_error_iff (pkvs : List (Str × Js)) (ks : List Str) :
    exfilLoop (Js.obj pkvs) ks = .error () ↔
      ∃ k ∈ ks, suspiciousParams.contains (lowerS k) = true ∧
        (lookupStr pkvs k = none ∨ lookupStr pkvs k = some Js.null) := by
  induction ks with
  | nil => simp [exfilLoop]
  | cons k ks ih =>
    unfold exfilLoop
    by_cases hs : suspiciousParams.contains (lowerS k) = true
    · rw [if_pos hs]
      cases hstep : exfilStep (Js.obj pkvs) k with
      | error e =>
        cases e
        constructor
        · intro _
          exact ⟨k, List.mem_cons_self _ _, hs,
            (exfilStep_error_iff pkvs k).mp hstep⟩
        · intro _
          rfl
      | ok m =>
        have hbad : ¬ (lookupStr pkvs k = none ∨
            lookupStr pkvs k = some Js.null) := by
          intro hb
          rw [(exfilStep_error_iff pkvs k).mpr hb] at hstep
          exact Except.noConfusion hstep
        constructor
        · intro h
          cases hL : exfilLoop (Js.obj pkvs) ks with
          | error e =>
            cases e
            obtain ⟨k', hk', h1, h2⟩ := ih.mp hL
            exact ⟨k', List.mem_cons_of_mem _ hk', h1, h2⟩
          | ok ms =>
            rw [hL] at h
            simp [Except.map] at h
        · intro h
          obtain ⟨k', hk', h1, h2⟩ := h
          rcases List.mem_cons.mp hk' with rfl | hk'
          · exact absurd h2 hbad
          · rw [ih.mpr ⟨k', hk', h1, h2⟩]
            rfl
    · rw [if_neg hs]
      rw [ih]
      constructor
      · intro h
        obtain ⟨k', hk', h1, h2⟩ := h
        exact ⟨k', List.mem_cons_of_mem _ hk', h1, h2⟩
      · intro h
        obtain ⟨k', hk', h1, h2⟩ := h
        rcases List.mem_cons.mp hk' with rfl | hk'
        · exact absurd h1 hs
        · exact ⟨k', hk', h1, h2⟩

theorem exfilLoop_ok_nonempty (pkvs : List (Str × Js)) (ks : List Str)
    (ms : List ExfilMatch) (h : exfilLoop (Js.obj pkvs) ks = .ok ms) :
    ms ≠ [] ↔ ∃ k ∈ ks, suspiciousParams.contains (lowerS k) = true := by
  induction ks generalizing ms with
  | nil =>
    unfold exfilLoop at h
    cases h
    simp
  | cons k ks ih =>
    unfold exfilLoop at h
    by_cases hs : suspiciousParams.contains (lowerS k) = true
    · rw [if_pos hs] at h
      cases hstep : exfilStep (Js.obj pkvs) k with
      | error e =>
        rw [hstep] at h
        exact Except.noConfusion h
      | ok m =>
        rw [hstep] at h
        cases hL : exfilLoop (Js.obj pkvs) ks with
        | error e =>
          rw [hL] at h
          simp [Except.map] at h
        | ok ms' =>
          rw [hL] at h
          simp only [Except.map] at h
          cases h
          exact iff_of_true (by simp) ⟨k, List.mem_cons_self _ _, hs⟩
    · rw [if_neg hs] at h
      rw [ih ms h]
      constructor
      · intro h'
        obtain ⟨k', hk', h1⟩ := h'
        exact ⟨k', List.mem_cons_of_mem _ hk', h1⟩
      · intro h'
        obtain ⟨k', hk', h1⟩ := h'
        rcases List.mem_cons.mp hk' with rfl | hk'
        · exact absurd h1 hs
        · exact ⟨k', hk', h1⟩

theorem detectExfil_props_error_iff (pkvs : List (Str × Js))
    (hnd : (pkvs.map Prod.fst).Nodup) :
    detectExfiltrationChannels (schemaWithProps pkvs) = .error () ↔
      ∃ kv ∈ pkvs, suspiciousParams.contains (lowerS kv.1) = true ∧
        kv.2 = Js.null := by
  rw [detectExfil_props_eq]
  cases hL : exfilLoop (Js.obj pkvs) (pkvs.map Prod.fst) with
  | error e =>
    cases e
    refine iff_of_true rfl ?_
    obtain ⟨k, hk, h1, h2⟩ := (exfilLoop_error_iff _ _).mp hL
    rcases h2 with h2 | h2
    · obtain ⟨v, hv⟩ := lookupStr_isSome_of_mem hk
      rw [hv] at h2
      exact Option.noConfusion h2
    · exact ⟨(k, Js.null), lookupStr_mem h2, h1, rfl⟩
  | ok ms =>
    refine iff_of_false (fun h => Except.noConfusion h) ?_
    intro h
    obtain ⟨kv, hkv, h1, h2⟩ := h
    have hmem : (kv.1, Js.null) ∈ pkvs := by
      rw [← h2, Prod.mk.eta]
      exact hkv
    have herr : exfilLoop (Js.obj pkvs) (pkvs.map Prod.fst) = .error () :=
      (exfilLoop_error_iff _ _).mpr ⟨kv.1, List.mem_map.mpr ⟨kv, hkv, rfl⟩, h1,
        Or.inr (lookupStr_eq_of_mem_nodup hnd hmem)⟩
    rw [herr] at hL
    exact Except.noConfusion hL

theorem detectExfil_props_ok_detected (pkvs : List (Str × Js))
    (r : ExfilResult)
    (h : detectExfiltrationChannels (schemaWithProps pkvs) = .ok r) :
    r.detected = true ↔
      ∃ kv ∈ pkvs, suspiciousParams.contains (lowerS kv.1) = true := by
  rw [detectExfil_props_eq] at h
  cases hL : exfilLoop (Js.obj pkvs) (pkvs.map Prod.fst) with
  | error e =>
    rw [hL] at h
    exact Except.noConfusion h
  | ok ms =>
    rw [hL] at h
    cases h
    have h1 := exfilLoop_ok_nonempty pkvs _ ms hL
    constructor
    · intro hd
      simp only [decide_eq_true_eq] at hd
      obtain ⟨k, hk, hs⟩ := h1.mp (List.ne_nil_of_length_pos hd)
      obtain ⟨kv, hkv, rfl⟩ := List.mem_map.mp hk
      exact ⟨kv, hkv, hs⟩
    · intro h'
      obtain ⟨kv, hkv, hs⟩ := h'
      have hne : ms ≠ [] :=
        h1.mpr ⟨kv.1, List.mem_map.mpr ⟨kv, hkv, rfl⟩, hs⟩
      simp only [decide_eq_true_eq]
      exact List.length_pos.mpr hne

theorem detectExfil_props_congr (pkvs₁ pkvs₂ : List (Str × Js))
    (hnd₁ : (pkvs₁.map Prod.fst).Nodup) (hnd₂ : (pkvs₂.map Prod.fst).Nodup)
    (hbad : (∃ kv ∈ pkvs₁, suspiciousParams.contains (lowerS kv.1) = true ∧
        kv.2 = Js.null) ↔
      (∃ kv ∈ pkvs₂, suspiciousParams.contains (lowerS kv.1) = true ∧
        kv.2 = Js.null))
    (hsusp : (∃ kv ∈ pkvs₁, suspiciousParams.contains (lowerS kv.1) = true) ↔
      (∃ kv ∈ pkvs₂, suspiciousParams.contains (lowerS kv.1) = true)) :
    (detectExfiltrationChannels (schemaWithProps pkvs₁)).map (·.detected) =
      (detectExfiltrationChannels (schemaWithProps pkvs₂)).map (·.detected) := by
  by_cases hP : ∃ kv ∈ pkvs₁, suspiciousParams.contains (lowerS kv.1) = true ∧
      kv.2 = Js.null
  · rw [(detectExfil_props_error_iff pkvs₁ hnd₁).mpr hP,
      (detectExfil_props_error_iff pkvs₂ hnd₂).mpr (hbad.mp hP)]
  · have hP₂ : ¬ ∃ kv ∈ pkvs₂,
        suspiciousParams.contains (lowerS kv.1) = true ∧ kv.2 = Js.null :=
      fun h => hP (hbad.mpr h)
    cases h1 : detectExfiltrationChannels (schemaWithProps pkvs₁) with
    | error e =>
      cases e
      exact absurd ((detectExfil_props_error_iff pkvs₁ hnd₁).mp h1) hP
    | ok r₁ =>
      cases h2 : detectExfiltrationChannels (schemaWithProps pkvs₂) with
      | error e =>
        cases e
        exact absurd ((detectExfil_props_error_iff pkvs₂ hnd₂).mp h2) hP₂
      | ok r₂ =>
        have hd : r₁.detected = r₂.detected := by
          rw [Bool.eq_iff_iff, detectExfil_props_ok_detected pkvs₁ r₁ h1,
            detectExfil_props_ok_detected pkvs₂ r₂ h2]
          exact hsusp
        simp [Except.map, hd]

/-! Section: Claim theorems -/

/-- C3. The exfiltration detector flags a schema iff at least one
property name, compared case-insensitively, belongs to the fixed
suspicious-name vocabulary; reordering the properties or changing the
letter case of property names does not change the detected outcome
(stated over duplicate-free key lists, as JS object keys are unique; the
outcome is compared as detected-or-thrown since `null`-valued suspicious
properties throw). -/
theorem c3_exfil_vocabulary :
    (∀ pkvs r, detectExfiltrationChannels (schemaWithProps pkvs) = .ok r →
      (r.detected = true ↔
        ∃ kv ∈ pkvs, suspiciousParams.contains (lowerS kv.1) = true)) ∧
    (∀ pkvs₁ pkvs₂ : List (Str × Js), pkvs₁.Perm pkvs₂ →
      (pkvs₁.map Prod.fst).Nodup →
      (detectExfiltrationChannels (schemaWithProps pkvs₁)).map (·.detected) =
        (detectExfiltrationChannels (schemaWithProps pkvs₂)).map (·.detected)) ∧
    (∀ (pkvs : List (Str × Js)) (f : Str → Str),
      (∀ k, lowerS (f k) = lowerS k) →
      (pkvs.map Prod.fst).Nodup →
      ((pkvs.map (fun kv => (f kv.1, kv.2))).map Prod.fst).Nodup →
      (detectExfiltrationChannels (schemaWithProps pkvs)).map (·.detected) =
        (detectExfiltrationChannels
          (schemaWithProps (pkvs.map (fun kv => (f kv.1, kv.2))))).map
            (·.detected)) := by
  refine ⟨fun pkvs r h => detectExfil_props_ok_detected pkvs r h, ?_, ?_⟩
  · intro pkvs₁ pkvs₂ hp hnd₁
    have hnd₂ : (pkvs₂.map Prod.fst).Nodup :=
      ((hp.map Prod.fst).nodup_iff).mp hnd₁
    refine detectExfil_props_congr _ _ hnd₁ hnd₂ ?_ ?_
    · exact ⟨fun ⟨kv, hkv, h⟩ => ⟨kv, hp.subset hkv, h⟩,
        fun ⟨kv, hkv, h⟩ => ⟨kv, hp.symm.subset hkv, h⟩⟩
    · exact ⟨fun ⟨kv, hkv, h⟩ => ⟨kv, hp.subset hkv, h⟩,
        fun ⟨kv, hkv, h⟩ => ⟨kv, hp.symm.subset hkv, h⟩⟩
  · intro pkvs f hf hnd₁ hnd₂
    refine detectExfil_props_congr _ _ hnd₁ hnd₂ ?_ ?_
    · constructor
      · rintro ⟨kv, hkv, h1, h2⟩
        exact ⟨(f kv.1, kv.2), List.mem_map.mpr ⟨kv, hkv, rfl⟩,
          by rw [hf]; exact h1, h2⟩
      · rintro ⟨kv₂, hkv₂, h1, h2⟩
        obtain ⟨kv, hkv, rfl⟩ := List.mem_map.mp hkv₂
        rw [hf] at h1
        exact ⟨kv, hkv, h1, h2⟩
    · constructor
      · rintro ⟨kv, hkv, h1⟩
        exact ⟨(f kv.1, kv.2), List.mem_map.mpr ⟨kv, hkv, rfl⟩,
          by rw [hf]; exact h1⟩
      · rintro ⟨kv₂, hkv₂, h1⟩
        obtain ⟨kv, hkv, rfl⟩ := List.mem_map.mp hkv₂
        rw [hf] at h1
        exact ⟨kv, hkv, h1⟩

/-- Witness for C3 at concrete schemas. -/
theorem c3_exfil_vocabulary_witness :
    ((⟨false, []⟩ : ExfilResult).detected = true ↔
      ∃ kv ∈ ([(strL "a", Js.num 1)] : List (Str × Js)),
        suspiciousParams.contains (lowerS kv.1) = true) ∧
    (detectExfiltrationChannels (schemaWithProps
        [(strL "a", Js.num 1), (strL "Notes", Js.bool true)])).map (·.detected) =
      (detectExfiltrationChannels (schemaWithProps
        [(strL "Notes", Js.bool true), (strL "a", Js.num 1)])).map (·.detected) ∧
    (detectExfiltrationChannels
        (schemaWithProps [(strL "Notes", Js.bool true)])).map (·.detected) =
      (detectExfiltrationChannels (schemaWithProps
        ([(strL "Notes", Js.bool true)].map (fun kv => (id kv.1, kv.2))))).map
          (·.detected) :=
  ⟨c3_exfil_vocabulary.1 [(strL "a", Js.num 1)] ⟨false, []⟩ rfl,
   c3_exfil_vocabulary.2.1 _ _
     (List.Perm.swap (strL "Notes", Js.bool true) (strL "a", Js.num 1) [])
     (by decide),
   c3_exfil_vocabulary.2.2 [(strL "Notes", Js.bool true)] id (fun _ => rfl)
     (by decide) (by decide)⟩

/-- C4. For every detector and every input, the returned `detected`
flag is `true` iff the returned match sequence is non-empty; a text on
which no configured rule fires yields `detected = false` with an empty
match list. -/
theorem c4_detected_iff_nonempty :
    (∀ t ps, (detectPatterns t ps).detected = true ↔
      (detectPatterns t ps).matches_ ≠ []) ∧
    (∀ t, (detectHiddenInstructions t).detected = true ↔
      (detectHiddenInstructions t).matches_ ≠ []) ∧
    (∀ t, (detectToolShadowing t).detected = true ↔
      (detectToolShadowing t).matches_ ≠ []) ∧
    (∀ t, (detectSensitiveFileAccess t).detected = true ↔
      (detectSensitiveFileAccess t).matches_ ≠ []) ∧
    (∀ s r, detectExfiltrationChannels s = .ok r →
      (r.detected = true ↔ r.matches_ ≠ [])) ∧
    (∀ d o c sl r, detectCrossOriginViolations d o c sl = .ok r →
      (r.detected = true ↔ r.matches_ ≠ [])) ∧
    (∀ t ps, (∀ p ∈ ps, matchFirst p.re t = none) →
      detectPatterns (some t) ps = ⟨false, []⟩) :=
  ⟨detectPatterns_detected_iff,
   fun t => detectPatterns_detected_iff t hiddenInstructionPatterns,
   fun t => detectPatterns_detected_iff t toolShadowingPatterns,
   fun t => detectPatterns_detected_iff t sensitiveFilePatterns,
   detectExfil_ok_shape, detectCross_ok_shape, detectPatterns_no_hit⟩

/-- Witness for C4's fallible-detector and no-trigger clauses. -/
theorem c4_detected_iff_nonempty_witness :
    ((⟨false, []⟩ : ExfilResult).detected = true ↔
      (⟨false, []⟩ : ExfilResult).matches_ ≠ []) ∧
    ((⟨false, []⟩ : CrossResult).detected = true ↔
      (⟨false, []⟩ : CrossResult).matches_ ≠ []) ∧
    detectPatterns (some (strL "hello")) hiddenInstructionPatterns =
      ⟨false, []⟩ :=
  ⟨c4_detected_iff_nonempty.2.2.2.2.1 none ⟨false, []⟩ rfl,
   c4_detected_iff_nonempty.2.2.2.2.2.1 none none (strL "x") none
     ⟨false, []⟩ rfl,
   c4_detected_iff_nonempty.2.2.2.2.2.2 (strL "hello")
     hiddenInstructionPatterns (by decide)⟩

/-- C5. Every match record produced by `detectPatterns` has `match`
equal to the literal substring of the text at the rule's first (leftmost)
occurrence, and `context` contains that substring. -/
theorem c5_match_and_context (t : Str) (ps : List Pattern)
    (m : DetectionMatch) (hm : m ∈ (detectPatterns (some t) ps).matches_) :
    ∃ p ∈ ps, ∃ s l, matchFirst p.re t = some (s, l) ∧ s + l ≤ t.length ∧
      (∀ q < s, matchEnds p.re t q = []) ∧
      m.match_ = slice t s (s + l) ∧
      m.match_ <:+: m.context := by
  obtain ⟨p, hp, s, l, hsl, hmk⟩ := detectPatterns_mem hm
  obtain ⟨h1, _, h3⟩ := matchFirst_spec _ _ _ _ hsl
  refine ⟨p, hp, s, l, hsl, h1, h3, ?_, detectPatterns_context_contains hm⟩
  rw [hmk]

/-- Witness for C5 on the text `"hide this"`. -/
theorem c5_match_and_context_witness :
    ∃ p ∈ hiddenInstructionPatterns, ∃ s l,
      matchFirst p.re (strL "hide this") = some (s, l) ∧
      s + l ≤ (strL "hide this").length ∧
      (∀ q < s, matchEnds p.re (strL "hide this") q = []) ∧
      (⟨strL "Hide instruction", strL "\\bhide this\\b", strL "hide this",
        strL "...hide this..."⟩ : DetectionMatch).match_ =
        slice (strL "hide this") s (s + l) ∧
      (⟨strL "Hide instruction", strL "\\bhide this\\b", strL "hide this",
        strL "...hide this..."⟩ : DetectionMatch).match_ <:+:
        (⟨strL "Hide instruction", strL "\\bhide this\\b", strL "hide this",
          strL "...hide this..."⟩ : DetectionMatch).context :=
  c5_match_and_context (strL "hide this") hiddenInstructionPatterns _
    (by decide)

/-- C7 (counterexample). On the nine-character text `"hide this"` the
match spans the whole text and the context window is unclipped on both
sides (`startIndex = 0` and `endIndex = text.length`), yet the reported
context still carries the `'...'` ellipsis marker on both sides — the
marker does not indicate clipping. -/
theorem c7_context_counterexample :
    detectHiddenInstructions (some (strL "hide this")) =
      ⟨true, [⟨strL "Hide instruction", strL "\\bhide this\\b",
        strL "hide this", strL "...hide this..."⟩]⟩ ∧
    matchFirst (seqList [RE.wb, lits "hide this", RE.wb]) (strL "hide this") =
      some (0, 9) ∧
    max 0 (0 - 20) = 0 ∧
    min (strL "hide this").length (0 + 9 + 20) = (strL "hide this").length :=
  ⟨by decide, by decide, rfl, by decide⟩

/-- C7 (amended). For every firing rule the context is the
±20-character window around the match clipped to the text bounds, with
the `'...'` ellipsis marker glued on **both** sides unconditionally
(whether or not the window was clipped on that side). -/
theorem c7_context_window (t : Str) (ps : List Pattern) (m : DetectionMatch)
    (hm : m ∈ (detectPatterns (some t) ps).matches_) :
    ∃ p ∈ ps, ∃ s l, matchFirst p.re t = some (s, l) ∧
      m.context =
        dots ++ slice t (max 0 (s - 20)) (min t.length (s + l + 20)) ++ dots := by
  obtain ⟨p, hp, s, l, hsl, hmk⟩ := detectPatterns_mem hm
  exact ⟨p, hp, s, l, hsl, by rw [hmk]⟩

/-- Witness for the amended C7 on the text `"hide this"`. -/
theorem c7_context_window_witness :
    ∃ p ∈ hiddenInstructionPatterns, ∃ s l,
      matchFirst p.re (strL "hide this") = some (s, l) ∧
      (⟨strL "Hide instruction", strL "\\bhide this\\b", strL "hide this",
        strL "...hide this..."⟩ : DetectionMatch).context =
        dots ++ slice (strL "hide this") (max 0 (s - 20))
          (min (strL "hide this").length (s + l + 20)) ++ dots :=
  c7_context_window (strL "hide this") hiddenInstructionPatterns _ (by decide)

/-- C6 (counterexample). The match record the exfiltration detector
produces for the schema `{properties: {notes: {type: 'string'}}}`
carries the JS keys `{type, param, paramType, reason, details}` — it is
not a DetectionMatch: it has no `pattern`, `match` or `context` field. -/
theorem c6_bundle_counterexample :
    (detectExfiltrationChannels (schemaWithProps
        [(strL "notes", Js.obj [(strL "type", Js.str (strL "string"))])])).map
      (fun r => r.matches_.map (fun m => m.jsKeys)) =
      .ok [[strL "type", strL "param", strL "paramType", strL "reason",
        strL "details"]] ∧
    ¬ strL "match" ∈ [strL "type", strL "param", strL "paramType",
      strL "reason", strL "details"] ∧
    ¬ strL "context" ∈ [strL "type", strL "param", strL "paramType",
      strL "reason", strL "details"] ∧
    ¬ strL "pattern" ∈ [strL "type", strL "param", strL "paramType",
      strL "reason", strL "details"] :=
  ⟨rfl, by decide, by decide, by decide⟩

/-- C6 (amended). Elements of the three text-based sequences
(hiddenInstructions, shadowing, sensitiveFileAccess) are DetectionMatch
records carrying `{type, pattern, match, context}` with `context`
containing `match`; elements of the exfiltrationChannels sequence
instead carry `{type, param, paramType, reason, details}`. -/
theorem c6_bundle_shapes :
    (∀ t ps m, m ∈ (detectPatterns t ps).matches_ →
      m.jsKeys = [strL "type", strL "pattern", strL "match", strL "context"] ∧
      m.match_ <:+: m.context) ∧
    (∀ s r e, detectExfiltrationChannels s = .ok r → e ∈ r.matches_ →
      e.jsKeys = [strL "type", strL "param", strL "paramType",
        strL "reason", strL "details"]) := by
  constructor
  · intro t ps m hm
    cases t with
    | none => simp [detectPatterns] at hm
    | some t => exact ⟨rfl, detectPatterns_context_contains hm⟩
  · intro s r e _ _
    rfl

/-- Witness for the amended C6 at concrete inputs. -/
theorem c6_bundle_shapes_witness :
    ((⟨strL "Hide instruction", strL "\\bhide this\\b", strL "hide this",
        strL "...hide this..."⟩ : DetectionMatch).jsKeys =
      [strL "type", strL "pattern", strL "match", strL "context"] ∧
      (⟨strL "Hide instruction", strL "\\bhide this\\b", strL "hide this",
        strL "...hide this..."⟩ : DetectionMatch).match_ <:+:
        (⟨strL "Hide instruction", strL "\\bhide this\\b", strL "hide this",
          strL "...hide this..."⟩ : DetectionMatch).context) ∧
    (⟨strL "Suspicious parameter", strL "notes", Js.str (strL "string"),
      strL "Parameter name " ++ [apos] ++ strL "notes" ++ [apos] ++
        strL " could be used for exfiltration",
      strL "\x7b\n  \"type\": \"string\"\n\x7d"⟩ : ExfilMatch).jsKeys =
      [strL "type", strL "param", strL "paramType", strL "reason",
        strL "details"] :=
  ⟨c6_bundle_shapes.1 (some (strL "hide this")) hiddenInstructionPatterns _
      (by decide),
   c6_bundle_shapes.2 (schemaWithProps
      [(strL "notes", Js.obj [(strL "type", Js.str (strL "string"))])])
      ⟨true, [⟨strL "Suspicious parameter", strL "notes",
        Js.str (strL "string"),
        strL "Parameter name " ++ [apos] ++ strL "notes" ++ [apos] ++
          strL " could be used for exfiltration",
        strL "\x7b\n  \"type\": \"string\"\n\x7d"⟩]⟩ _ rfl
      (List.mem_cons_self _ _)⟩

/-- C2. With candidates `["whatsapp"]`, current server `"notes"` and
description `"call (whatsapp) to send"` the correlator produces exactly
one match whose referenced server is `"whatsapp"`; with the same
description but current server `"whatsapp"` and no other-server
candidates, the popular list excludes the current server's own name and
no match is produced. -/
theorem c2_correlation_example :
    detectCrossOriginViolations (some (strL "call (whatsapp) to send"))
        (some [strL "whatsapp"]) (strL "notes") none =
      .ok ⟨true, [⟨strL "Cross-origin reference", strL "\\b(whatsapp)\\b",
        strL "whatsapp", strL "...call (whatsapp) to send...",
        some (strL "whatsapp")⟩]⟩ ∧
    detectCrossOriginViolations (some (strL "call (whatsapp) to send"))
        (some []) (strL "whatsapp") none = .ok ⟨false, []⟩ ∧
    detectCrossOriginViolations (some (strL "call (whatsapp) to send"))
        none (strL "whatsapp") none = .ok ⟨false, []⟩ :=
  ⟨rfl, rfl, rfl⟩

/-- C10. Exclusion of the current server from the fixed popular list
is case-sensitive (`!==`) while token matching works on lower-cased
strings: a well-known identifier that differs from the current server
name only in letter case stays in the candidate list, so a description
on that very server mentioning its own name is reported as a
cross-origin match; with the exactly-equal name it is excluded. -/
theorem c10_case_sensitive_self_exclusion :
    (∀ cur pop, pop ∈ POPULAR_MCP_SERVERS → pop ≠ cur →
      pop ∈ POPULAR_MCP_SERVERS.filter
        (fun popularName => popularName ≠ cur)) ∧
    (lowerS (strL "WhatsApp") = lowerS (strL "whatsapp") ∧
      strL "WhatsApp" ≠ strL "whatsapp") ∧
    detectCrossOriginViolations (some (strL "use whatsapp now")) none
        (strL "WhatsApp") none =
      .ok ⟨true, [⟨strL "Cross-origin reference", strL "\\bwhatsapp\\b",
        strL "whatsapp", strL "...use whatsapp now...",
        some (strL "whatsapp")⟩]⟩ ∧
    detectCrossOriginViolations (some (strL "use whatsapp now")) none
        (strL "whatsapp") none = .ok ⟨false, []⟩ := by
  refine ⟨?_, ⟨by decide, by decide⟩, rfl, rfl⟩
  intro cur pop hmem hne
  rw [List.mem_filter]
  exact ⟨hmem, by simp [hne]⟩

/-- Witness for C10: `"whatsapp"` survives the exclusion filter for
current server `"WhatsApp"`. -/
theorem c10_case_sensitive_self_exclusion_witness :
    strL "whatsapp" ∈ POPULAR_MCP_SERVERS.filter
      (fun popularName => popularName ≠ strL "WhatsApp") :=
  c10_case_sensitive_self_exclusion.1 (strL "WhatsApp") (strL "whatsapp")
    (by decide) (by decide)

/-- C9. `analyzeWithClaude` never propagates a failure: with missing
credentials (no truthy API key, no Bedrock flag) it returns the
explanatory message with `overallRisk = null`; any error thrown by the
secondary-opinion call is caught and returned as an analysis record with
`overallRisk = null`. -/
theorem c9_claude_degrades :
    (∀ d o, analyzeWithClaude d none false o = ⟨noKeyMsg, none⟩) ∧
    (∀ d o, analyzeWithClaude d (some []) false o = ⟨noKeyMsg, none⟩) ∧
    (∀ d k b m, (analyzeWithClaude d k b (.error m)).overallRisk = none) ∧
    (∀ d b m c ks, analyzeWithClaude d (some (c :: ks)) b (.error m) =
      ⟨strL "Error using Claude API: " ++ m, none⟩) ∧
    (∀ d k m, analyzeWithClaude d k true (.error m) =
      ⟨strL "Error using Claude API: " ++ m, none⟩) := by
  refine ⟨fun d o => rfl, fun d o => rfl, ?_, ?_, ?_⟩
  · intro d k b m
    unfold analyzeWithClaude
    by_cases hc : (!apiKeyTruthy k && !b) = true
    · rw [if_pos hc]
    · rw [if_neg hc]
  · intro d b m c ks
    simp [analyzeWithClaude, apiKeyTruthy]
  · intro d k m
    simp [analyzeWithClaude, apiKeyTruthy]

/-- C8 (counterexample). On a run where the connection and the tools
listing both succeed and only the pre-return `client.close()` rejects,
`getTools` throws a connection-failure error carrying the close error
message — an error from closing that is *not* swallowed but decides the
outcome of the success path. -/
theorem c8_close_counterexample :
    getTools ⟨none, some (strL "srv"), none, none⟩
        ⟨.connected, .ok (some []), some (strL "close boom"), none⟩ =
      ⟨.error (strL "Failed to connect to srv: close boom"), 2⟩ := rfl

/-- How `getTools` runs once the transport exists (valid configuration). -/
theorem getTools_valid_eq (cfg : ServerConfig) (env : ConnEnv)
    (hv : (cfgIsSSE cfg || cfgHasCommand cfg) = true) :
    getTools cfg env =
      match env.race with
      | .timedOut => ⟨.error (timeoutMsg cfg), 1⟩
      | .connectFailed m => ⟨.error (failMsg cfg m), 1⟩
      | .connected =>
        match env.listToolsResult with
        | .error m => ⟨.error (failMsg cfg m), 1⟩
        | .ok tools? =>
          match env.closeMid with
          | some m => ⟨.error (failMsg cfg m), 2⟩
          | none => ⟨.ok (tools?.getD []), 2⟩ := by
  unfold getTools
  have hcond : (!cfgIsSSE cfg && !cfgHasCommand cfg) = false := by
    cases hS : cfgIsSSE cfg <;> simp_all
  rw [hcond]
  rfl

/-- C8 (amended). `getTools` races the connection attempt against the
fixed 30-second timeout and the race winner decides the outcome (timeout
⇒ timeout error, early connection rejection ⇒ connection error); once the
transport exists the client is closed on every exit path, and an error
from the `finally`-block close never influences anything — but an error
from the pre-return close on the success path is caught by the generic
handler and surfaces as a connection-failure error rather than being
swallowed. -/
theorem c8_gettools_lifecycle :
    connectionTimeout = 30000 ∧
    (∀ (cfg : ServerConfig) (env : ConnEnv),
      (cfgIsSSE cfg || cfgHasCommand cfg) = true →
      1 ≤ (getTools cfg env).closeCalls) ∧
    (∀ (cfg : ServerConfig) (env : ConnEnv),
      (cfgIsSSE cfg || cfgHasCommand cfg) = true →
      env.race = .timedOut →
      (getTools cfg env).result = .error (timeoutMsg cfg)) ∧
    (∀ (cfg : ServerConfig) (env : ConnEnv) (m : Str),
      (cfgIsSSE cfg || cfgHasCommand cfg) = true →
      env.race = .connectFailed m →
      (getTools cfg env).result = .error (failMsg cfg m)) ∧
    (∀ (cfg : ServerConfig) (env : ConnEnv) (x y : Option Str),
      getTools cfg { env with closeFinal := x } =
        getTools cfg { env with closeFinal := y }) ∧
    (∀ (cfg : ServerConfig) (env : ConnEnv) (tools? : Option (List Tool)),
      (cfgIsSSE cfg || cfgHasCommand cfg) = true →
      env.race = .connected → env.listToolsResult = .ok tools? →
      env.closeMid = none →
      getTools cfg env = ⟨.ok (tools?.getD []), 2⟩) := by
  refine ⟨rfl, ?_, ?_, ?_, ?_, ?_⟩
  · intro cfg env hv
    rw [getTools_valid_eq cfg env hv]
    obtain ⟨race, ltr, cm, cf⟩ := env
    cases race <;> try simp
    cases ltr <;> try simp
    cases cm <;> simp
  · intro cfg env hv hr
    rw [getTools_valid_eq cfg env hv, hr]
  · intro cfg env m hv hr
    rw [getTools_valid_eq cfg env hv, hr]
  · intro cfg env x y
    obtain ⟨race, ltr, cm, cf⟩ := env
    rfl
  · intro cfg env tools? hv hr hl hm
    rw [getTools_valid_eq cfg env hv, hr, hl, hm]

/-- Witness for the amended C8 on concrete runs. -/
theorem c8_gettools_lifecycle_witness :
    1 ≤ (getTools ⟨none, some (strL "srv"), none, none⟩
      ⟨.timedOut, .ok none, none, none⟩).closeCalls ∧
    (getTools ⟨none, some (strL "srv"), none, none⟩
      ⟨.timedOut, .ok none, none, none⟩).result =
      .error (timeoutMsg ⟨none, some (strL "srv"), none, none⟩) ∧
    getTools ⟨none, some (strL "srv"), none, none⟩
      ⟨.connected, .ok (some []), none, none⟩ = ⟨.ok ((some []).getD []), 2⟩ :=
  ⟨c8_gettools_lifecycle.2.1 _ _ (by decide),
   c8_gettools_lifecycle.2.2.1 _ _ (by decide) rfl,
   c8_gettools_lifecycle.2.2.2.2.2 _ _ (some []) (by decide) rfl rfl rfl⟩

/-! Section: Totality of the correlator on regex-safe descriptions (C1) -/

/-- The regex metacharacters; a token consisting only of other characters
compiles to a plain literal-sequence regex. -/
def regexMetaChars : List Char :=
  ['(', ')', '[', ']', '\\', '|', '*', '+', '?', '^', '$', '.',
   Char.ofNat 123, Char.ofNat 125]

/-- A character the token parser consumes as a plain literal atom. -/
def regexPlainChar (c : Char) : Bool := !(regexMetaChars.contains c)

theorem regexPlainChar_spec {c : Char} (h : regexPlainChar c = true) :
    c ≠ '(' ∧ c ≠ ')' ∧ c ≠ '[' ∧ c ≠ ']' ∧ c ≠ '\\' ∧ c ≠ '|' ∧
    c ≠ '*' ∧ c ≠ '+' ∧ c ≠ '?' ∧ c ≠ '^' ∧ c ≠ '$' ∧ c ≠ '.' ∧
    c ≠ Char.ofNat 123 ∧ c ≠ Char.ofNat 125 := by
  refine ⟨?_, ?_, ?_, ?_, ?_, ?_, ?_, ?_, ?_, ?_, ?_, ?_, ?_, ?_⟩ <;>
    (intro hEq; subst hEq; exact absurd h (by decide))

theorem pQuantApply_plain (atom : RE) (k? : Option CC) (h : Char) (r : Str)
    (hp : regexPlainChar h = true) :
    pQuantApply atom k? (h :: r) = some (atom, h :: r) := by
  have hc := regexPlainChar_spec hp
  simp only [pQuantApply]
  rw [if_neg hc.2.2.2.2.2.2.1, if_neg hc.2.2.2.2.2.2.2.1,
    if_neg hc.2.2.2.2.2.2.2.2.1, if_neg hc.2.2.2.2.2.2.2.2.2.2.2.2.1]

theorem pSeq_plain (tok : Str) : ∀ f, tok.length < f →
    (∀ c ∈ tok, regexPlainChar c = true) →
    pSeq f tok = some (tok.map RE.lit, []) := by
  induction tok with
  | nil =>
    intro f hf _
    cases f with
    | zero => omega
    | succ f => rfl
  | cons c rest ih =>
    intro f hf hp
    cases f with
    | zero => omega
    | succ f =>
      cases f with
      | zero => simp at hf
      | succ f' =>
        have hc := regexPlainChar_spec (hp c (List.mem_cons_self _ _))
        have h1 : ¬(c = ')' ∨ c = '|') := by
          rintro (h | h)
          · exact hc.2.1 h
          · exact hc.2.2.2.2.2.1 h
        have hAtom : pAtom (f' + 1) c rest =
            some (RE.lit c, some (CC.single c), rest) := by
          unfold pAtom
          rw [if_neg hc.1, if_neg hc.2.2.1, if_neg hc.2.2.2.2.1,
            if_neg hc.2.2.2.2.2.2.2.2.2.2.2.1]
          rw [if_neg, if_neg]
          · rintro (h | h | h | h | h)
            · exact hc.2.2.2.2.2.2.1 h
            · exact hc.2.2.2.2.2.2.2.1 h
            · exact hc.2.2.2.2.2.2.2.2.1 h
            · exact hc.2.2.2.2.2.2.2.2.2.2.2.2.1 h
            · exact hc.2.2.2.2.2.2.2.2.2.2.2.2.2 h
          · rintro (h | h)
            · exact hc.2.2.2.2.2.2.2.2.2.1 h
            · exact hc.2.2.2.2.2.2.2.2.2.2.1 h
        have hQuant : pQuantApply (RE.lit c) (some (CC.single c)) rest =
            some (RE.lit c, rest) := by
          cases rest with
          | nil => rfl
          | cons h r =>
            exact pQuantApply_plain _ _ h r
              (hp h (List.mem_cons_of_mem _ (List.mem_cons_self _ _)))
        have hrest : rest.length < f' + 1 := by
          simp only [List.length_cons] at hf
          omega
        have hih := ih (f' + 1) hrest
          (fun x hx => hp x (List.mem_cons_of_mem _ hx))
        show pSeq (f' + 1 + 1) (c :: rest) = _
        simp only [pSeq, if_neg h1, hAtom, hQuant, hih, List.map_cons]

theorem compileToken_plain (tok : Str)
    (hp : ∀ c ∈ tok, regexPlainChar c = true) :
    compileToken tok = some (seqList (RE.wb :: (tok.map RE.lit ++ [RE.wb]))) := by
  unfold compileToken
  rw [pSeq_plain tok (8 * tok.length + 8) (by omega) hp]

theorem splitWsGo_chars (n : Nat) : ∀ (rest : Str), rest.length ≤ n →
    (∀ acc tok, tok ∈ splitWsGo acc rest → ∀ c ∈ tok, c ∈ acc ∨ c ∈ rest) ∧
    (∀ tok, tok ∈ splitWsSkip rest → ∀ c ∈ tok, c ∈ rest) := by
  induction n with
  | zero =>
    intro rest hlen
    have hr : rest = [] := List.length_eq_zero.mp (Nat.le_zero.mp hlen)
    subst hr
    constructor
    · intro acc tok htok c hc
      simp only [splitWsGo, List.mem_singleton] at htok
      subst htok
      exact Or.inl (List.mem_reverse.mp hc)
    · intro tok htok c hc
      simp only [splitWsSkip, List.mem_singleton] at htok
      subst htok
      simp at hc
  | succ n ih =>
    intro rest hlen
    cases rest with
    | nil =>
      constructor
      · intro acc tok htok c hc
        simp only [splitWsGo, List.mem_singleton] at htok
        subst htok
        exact Or.inl (List.mem_reverse.mp hc)
      · intro tok htok c hc
        simp only [splitWsSkip, List.mem_singleton] at htok
        subst htok
        simp at hc
    | cons d cs =>
      have hcs : cs.length ≤ n := by
        simp only [List.length_cons] at hlen
        omega
      have ihcs := ih cs hcs
      constructor
      · intro acc tok htok c hc
        by_cases hw : isJsWs d = true
        · rw [show splitWsGo acc (d :: cs) = acc.reverse :: splitWsSkip cs by
            rw [splitWsGo, if_pos hw]] at htok
          rcases List.mem_cons.mp htok with rfl | htok
          · exact Or.inl (List.mem_reverse.mp hc)
          · exact Or.inr (List.mem_cons_of_mem _ (ihcs.2 tok htok c hc))
        · rw [show splitWsGo acc (d :: cs) = splitWsGo (d :: acc) cs by
            rw [splitWsGo, if_neg hw]] at htok
          rcases ihcs.1 (d :: acc) tok htok c hc with h | h
          · rcases List.mem_cons.mp h with rfl | h
            · exact Or.inr (List.mem_cons_self _ _)
            · exact Or.inl h
          · exact Or.inr (List.mem_cons_of_mem _ h)
      · intro tok htok c hc
        by_cases hw : isJsWs d = true
        · rw [show splitWsSkip (d :: cs) = splitWsSkip cs by
            rw [splitWsSkip, if_pos hw]] at htok
          exact List.mem_cons_of_mem _ (ihcs.2 tok htok c hc)
        · rw [show splitWsSkip (d :: cs) = splitWsGo [d] cs by
            rw [splitWsSkip, if_neg hw]] at htok
          rcases ihcs.1 [d] tok htok c hc with h | h
          · rw [List.mem_singleton] at h
            subst h
            exact List.mem_cons_self _ _
          · exact List.mem_cons_of_mem _ h

theorem splitWs_chars {s tok : Str} (h : tok ∈ splitWs s) :
    ∀ c ∈ tok, c ∈ s := by
  intro c hc
  rcases (splitWsGo_chars s.length s le_rfl).1 [] tok h c hc with h' | h'
  · simp at h'
  · exact h'

theorem crossTokenLoop_ok (d : Str) (comb flagged : List Str)
    (toks : List Str) (h : ∀ tok ∈ toks, (compileToken tok).isSome = true) :
    ∃ ms, crossTokenLoop d comb flagged toks = .ok ms := by
  induction toks with
  | nil => exact ⟨[], rfl⟩
  | cons tok toks ih =>
    obtain ⟨ms, hms⟩ := ih (fun t ht => h t (List.mem_cons_of_mem _ ht))
    unfold crossTokenLoop
    by_cases hf : flagged.contains (cleanToken tok) = true
    · rw [if_pos hf]
      cases hct : compileToken tok with
      | none =>
        have hsome := h tok (List.mem_cons_self _ _)
        rw [hct] at hsome
        simp at hsome
      | some re =>
        cases hmf : matchFirst re d with
        | none =>
          exact ⟨ms, by simp only [hct, hmf]; exact hms⟩
        | some sl =>
          obtain ⟨s, l⟩ := sl
          exact ⟨_, by simp only [hct, hmf]; rw [hms]; rfl⟩
    · rw [if_neg hf]
      exact ⟨ms, hms⟩

theorem detectCross_ok_of_plain (d : Str) (o : Option (List Str)) (c : Str)
    (sl : Option (List Str))
    (hp : ∀ ch ∈ d, regexPlainChar (lowerC ch) = true) :
    ∃ r, detectCrossOriginViolations (some d) o c sl = .ok r := by
  simp only [detectCrossOriginViolations]
  by_cases hd : d = []
  · rw [if_pos hd]
    exact ⟨_, rfl⟩
  · rw [if_neg hd]
    by_cases hc : combinedNames o c sl = []
    · rw [if_pos hc]
      exact ⟨_, rfl⟩
    · rw [if_neg hc]
      unfold crossFinish
      have hall : ∀ tok ∈ splitWs (lowerS d), (compileToken tok).isSome = true := by
        intro tok htok
        have hchars : ∀ ch ∈ tok, regexPlainChar ch = true := by
          intro ch hch
          obtain ⟨c0, hc0, rfl⟩ := List.mem_map.mp (splitWs_chars htok ch hch)
          exact hp c0 hc0
        rw [compileToken_plain tok hchars]
        rfl
      obtain ⟨ms, hms⟩ := crossTokenLoop_ok d _ _ _ hall
      rw [hms]
      exact ⟨_, rfl⟩

theorem detectExfil_ok_of_nonnull (pkvs : List (Str × Js))
    (h : ∀ kv ∈ pkvs, kv.2 ≠ Js.null) :
    ∃ r, detectExfiltrationChannels (schemaWithProps pkvs) = .ok r := by
  rw [detectExfil_props_eq]
  cases hL : exfilLoop (Js.obj pkvs) (pkvs.map Prod.fst) with
  | error e =>
    cases e
    obtain ⟨k, hk, hsusp, hbad⟩ := (exfilLoop_error_iff _ _).mp hL
    rcases hbad with hb | hb
    · obtain ⟨v, hv⟩ := lookupStr_isSome_of_mem hk
      rw [hv] at hb
      exact Option.noConfusion hb
    · exact absurd rfl (h (k, Js.null) (lookupStr_mem hb))
  | ok ms => exact ⟨_, rfl⟩

/-- C1 (counterexample). Detection is *not* total: the correlator
builds `new RegExp('\\b' + token + '\\b')` from raw description tokens,
so an other-server name `"("` whose token reaches the regex constructor
throws a `SyntaxError`; and the exfiltration detector reads
`paramDetails.type`, which throws a `TypeError` when a suspicious-named
property has value `null`. -/
theorem c1_totality_counterexample :
    (detectCrossOriginViolations (some (strL "(")) (some [strL "("])
      (strL "notes") none).isOk = false ∧
    (detectExfiltrationChannels (some (Js.obj [(strL "properties",
      Js.obj [(strL "notes", Js.null)])]))).isOk = false :=
  ⟨rfl, rfl⟩

/-- C1 (amended). The four category detectors are total on every
input (absent input yields the empty result); the exfiltration detector
returns a result for every schema whose property values are non-`null`;
the correlator returns a result for an absent description and for every
description whose characters are regex-safe (no metacharacters), but can
raise for server names/tokens containing regex metacharacters (and the
exfiltration detector for `null`-valued suspicious properties), as the
counterexample shows. -/
theorem c1_totality_amended :
    detectHiddenInstructions none = ⟨false, []⟩ ∧
    detectToolShadowing none = ⟨false, []⟩ ∧
    detectSensitiveFileAccess none = ⟨false, []⟩ ∧
    detectExfiltrationChannels none = .ok ⟨false, []⟩ ∧
    (∀ pkvs : List (Str × Js), (∀ kv ∈ pkvs, kv.2 ≠ Js.null) →
      ∃ r, detectExfiltrationChannels (schemaWithProps pkvs) = .ok r) ∧
    (∀ o c sl, detectCrossOriginViolations none o c sl = .ok ⟨false, []⟩) ∧
    (∀ (d : Str) o c sl, (∀ ch ∈ d, regexPlainChar (lowerC ch) = true) →
      ∃ r, detectCrossOriginViolations (some d) o c sl = .ok r) :=
  ⟨rfl, rfl, rfl, rfl, detectExfil_ok_of_nonnull, fun o c sl => rfl,
   detectCross_ok_of_plain⟩

/-- Witness for the amended C1 at concrete inputs. -/
theorem c1_totality_amended_witness :
    (∃ r, detectExfiltrationChannels (schemaWithProps
      [(strL "notes", Js.obj [(strL "type", Js.str (strL "string"))])]) =
        .ok r) ∧
    (∃ r, detectCrossOriginViolations (some (strL "send to whatsapp"))
      (some [strL "files"]) (strL "notes") none = .ok r) :=
  ⟨c1_totality_amended.2.2.2.2.1 _
    (by
      rintro kv hkv
      rw [List.mem_singleton] at hkv
      subst hkv
      exact fun h => Js.noConfusion h),
   c1_totality_amended.2.2.2.2.2.2 (strL "send to whatsapp")
     (some [strL "files"]) (strL "notes") none (by decide)⟩

end MCPShield

